import Mathlib

/-!
# Verse compiler — shallow embedding and claim verification

This file embeds the Verse script compiler (lexer, parser, type checker,
code generator, compiler facade) as executable Lean definitions, translated
from the TypeScript source, and settles the frozen claims about it.

Conventions of the embedding:
* JavaScript `Map` / plain-object records become association lists with
  overwrite-in-place semantics (`jsSet`); key lookup takes the first match.
* Thrown exceptions become `Except String`; a thrown error aborts the
  current computation.  The partially mutated checker state after a failed
  call is not tracked (no claim below depends on the state after an error).
* Numeric literal values are carried as their source lexeme; the compiler
  only inspects the JavaScript `typeof` of literal values and re-prints
  numbers, so this is faithful for canonical numerals.
* The code generator is instrumented: alongside the emitted string it
  records one `RenderEvent` per identifier-rendering decision and one
  `InjectEvent` per `_type` injection.  The string outputs are translated
  verbatim from the source; the events are a pure observer.
-/

/-- Join a list of strings with a separator (JavaScript `Array.join`). -/
def joinSep (sep : String) : List String → String
  | [] => ""
  | [s] => s
  | s :: rest => s ++ sep ++ joinSep sep rest

/-- JavaScript regex `^-?\d+$`: an optional minus followed by one or more digits. -/
def isIntegerString (s : String) : Bool :=
  match s.toList with
  | [] => false
  | '-' :: rest => rest ≠ [] && rest.all Char.isDigit
  | l => l.all Char.isDigit

/-- `JSON.stringify` on a string value; faithful for strings without
characters that JSON escapes (all type names and keys used below). -/
def jsonQuote (s : String) : String := "\"" ++ s ++ "\""

/-- Association-list lookup: first binding wins (JS `Map.get` / property read). -/
def jsGet {α : Type} : List (String × α) → String → Option α
  | [], _ => none
  | (k, v) :: rest, key => if k == key then some v else jsGet rest key

/-- Association-list update with JS `Map.set` / `obj[k] = v` semantics:
overwrite the existing binding in place, else append. -/
def jsSet {α : Type} : List (String × α) → String → α → List (String × α)
  | [], key, v => [(key, v)]
  | (k, w) :: rest, key, v =>
    if k == key then (k, v) :: rest else (k, w) :: jsSet rest key v

-- ============================================================================
-- Semantic types (src/src/compiler/type-checker.ts, interface Type)
-- ============================================================================

/-- The semantic `Type` of the checker: a tagged union over the `kind` field.
Optional fields of the TypeScript interface are only read in the kind that
sets them, so each kind carries exactly the fields the code uses. -/
inductive Ty where
  | primitive (name : String)
  | array (elementType : Ty)
  | object (name : Option String) (properties : List (String × Ty))
  | func (parameters : List Ty) (returnType : Ty) (isAsync : Bool)
  | union (types : List Ty)
  | promise (resolveType : Ty)
  | unknown

/-- `BUILTIN_TYPES.number` -/
def tyNumber : Ty := .primitive ("number")

/-- `BUILTIN_TYPES.string` -/
def tyString : Ty := .primitive ("string")

/-- `BUILTIN_TYPES.boolean` -/
def tyBoolean : Ty := .primitive ("boolean")

/-- `BUILTIN_TYPES.null` -/
def tyNull : Ty := .primitive ("null")

/-- `TypeChecker.typesEqual`: same kind required; primitives by name, arrays
and promises by recursive equality of the inner type, every other kind
(objects, functions, unions, unknown) falls through to `false`. -/
def typesEqual : Ty → Ty → Bool
  | .primitive a, .primitive b => a == b
  | .array a, .array b => typesEqual a b
  | .promise a, .promise b => typesEqual a b
  | _, _ => false

/-- `type.kind === 'unknown'` -/
def isUnknownKind : Ty → Bool
  | .unknown => true
  | _ => false

theorem sizeOf_jsGet_lt {l : List (String × Ty)} {k : String} {v : Ty}
    (h : jsGet l k = some v) : sizeOf v < sizeOf l := by
  induction l with
  | nil => simp [jsGet] at h
  | cons hd tl ih =>
    simp only [jsGet] at h
    split at h
    · cases h; cases hd; simp; omega
    · have := ih h; simp; omega

/-- `type.kind === 'union'` -/
def isUnionKind : Ty → Bool
  | .union _ => true
  | _ => false

/-- `type.types!` on a union type (`[]` on the other kinds, never read there). -/
def unionMembers : Ty → List Ty
  | .union ss => ss
  | _ => []

theorem sizeOf_unionMembers_lt {t : Ty} (h : isUnionKind t = true) :
    sizeOf (unionMembers t) < sizeOf t := by
  cases t <;> simp [isUnionKind] at h ⊢ <;> simp [unionMembers] <;> omega

mutual
/-- `TypeChecker.isAssignable(source, target)`, translated branch for branch:
union source fans out over its members; equal types are assignable; unknown
on either side is assignable; a union target accepts a source assignable to
some alternative; arrays and promises are covariant; objects are structural
(every target property present in the source with an assignable type). -/
def isAssignable (source target : Ty) : Bool :=
  if h : isUnionKind source then allAssignableTo (unionMembers source) target
  else isAssignableRest source target
termination_by (sizeOf source + sizeOf target, 1)
decreasing_by
  · have := sizeOf_unionMembers_lt h
    simp_wf; omega
  · simp_wf; omega

/-- The tail of `isAssignable` after the union-source fan-out (split out of
the source function solely so the termination measure is expressible). -/
def isAssignableRest (source target : Ty) : Bool :=
  if typesEqual source target then true
  else if isUnknownKind source || isUnknownKind target then true
  else if h : isUnionKind target then anyAssignableFrom source (unionMembers target)
  else
    match source, target with
    | .array se, .array te => isAssignable se te
    | .promise sr, .promise tr => isAssignable sr tr
    | .object _ sprops, .object _ tprops => propsAssignable sprops tprops
    | _, _ => false
termination_by (sizeOf source + sizeOf target, 0)
decreasing_by
  · have := sizeOf_unionMembers_lt h
    simp_wf; omega
  all_goals simp_wf; omega

/-- `source.types.every(s => isAssignable(s, target))` -/
def allAssignableTo : List Ty → Ty → Bool
  | [], _ => true
  | s :: rest, t => isAssignable s t && allAssignableTo rest t
termination_by l t => (sizeOf l + sizeOf t, 0)

/-- `target.types.some(t => isAssignable(source, t))` -/
def anyAssignableFrom : Ty → List Ty → Bool
  | _, [] => false
  | s, t :: rest => isAssignable s t || anyAssignableFrom s rest
termination_by s l => (sizeOf s + sizeOf l, 0)

/-- The structural-object loop of `isAssignable`: every property of the
target must exist in the source with an assignable type. -/
def propsAssignable (sprops : List (String × Ty)) : List (String × Ty) → Bool
  | [] => true
  | (key, tp) :: rest =>
    match h : jsGet sprops key with
    | none => false
    | some sp => isAssignable sp tp && propsAssignable sprops rest
termination_by l => (sizeOf sprops + sizeOf l, 0)
decreasing_by
  · have := sizeOf_jsGet_lt h; simp_wf; omega
  · simp_wf; omega
end

mutual
/-- `TypeChecker.typeToString` -/
def typeToString : Ty → String
  | .primitive name => name
  | .array e => typeToString e ++ "[]"
  | .promise r => "Promise<" ++ typeToString r ++ ">"
  | .object (some n) _ => n
  | .object none props => "\x7b " ++ joinSep (", ") (propStrings props) ++ " \x7d"
  | .func ps r isAsync =>
    (if isAsync then "async " else "") ++ "(" ++ joinSep (", ") (tyStrings ps)
      ++ ") => " ++ typeToString r
  | .union ts => joinSep (" | ") (tyStrings ts)
  | .unknown => "unknown"

/-- The mapped `key: value` strings of an anonymous object type. -/
def propStrings : List (String × Ty) → List String
  | [] => []
  | (k, v) :: rest => (k ++ ": " ++ typeToString v) :: propStrings rest

/-- The mapped member strings of a union or parameter list. -/
def tyStrings : List Ty → List String
  | [] => []
  | t :: rest => typeToString t :: tyStrings rest
end

-- ============================================================================
-- Type annotations (src/unnamed/part_001, TypeAnnotation)
-- ============================================================================

/-- The four primitive type-keyword names the parser can produce. -/
inductive PrimName where
  | number
  | string
  | boolean
  | nullName
deriving DecidableEq, Repr

/-- The keyword spelling of a primitive name. -/
def PrimName.lexeme : PrimName → String
  | .number => "number"
  | .string => "string"
  | .boolean => "boolean"
  | .nullName => "null"

/-- `BUILTIN_TYPES[annotation.name]` -/
def PrimName.builtin : PrimName → Ty
  | .number => tyNumber
  | .string => tyString
  | .boolean => tyBoolean
  | .nullName => tyNull

/-- Surface type annotations (`TypeAnnotation` union of the AST module). -/
inductive TypeAnn where
  | primitiveT (name : PrimName)
  | arrayT (elementType : TypeAnn)
  | objectT (properties : List (String × TypeAnn))
  | unionT (types : List TypeAnn)
  | typeReference (name : String)
  | promiseT (resolveType : TypeAnn)

mutual
/-- `TypeChecker.annotationToType`: resolve a surface annotation against the
custom-type registry; an unregistered `TypeReference` resolves to unknown. -/
def annotationToType (customTypes : List (String × Ty)) : TypeAnn → Ty
  | .primitiveT n => n.builtin
  | .arrayT e => .array (annotationToType customTypes e)
  | .objectT props => .object none (annotationProps customTypes props)
  | .unionT ts => .union (annotationList customTypes ts)
  | .typeReference name =>
    match jsGet customTypes name with
    | some t => t
    | none => .unknown
  | .promiseT r => .promise (annotationToType customTypes r)

/-- Property-wise resolution of an inline object annotation. -/
def annotationProps (customTypes : List (String × Ty)) :
    List (String × TypeAnn) → List (String × Ty)
  | [] => []
  | (k, a) :: rest =>
    (k, annotationToType customTypes a) :: annotationProps customTypes rest

/-- Member-wise resolution of a union annotation. -/
def annotationList (customTypes : List (String × Ty)) :
    List TypeAnn → List Ty
  | [] => []
  | a :: rest => annotationToType customTypes a :: annotationList customTypes rest
end

-- ============================================================================
-- AST (src/unnamed/part_001)
-- ============================================================================

/-- A JavaScript literal value as the parser stores it.  Numbers carry their
source lexeme: the compiler only dispatches on `typeof` and re-prints the
number, so the lexeme is all it observes for canonical numerals. -/
inductive JsLit where
  | num (lexeme : String)
  | str (s : String)
  | bool (b : Bool)
  | null

/-- Expression nodes.  `MemberExpression.property` is `string | ASTNode` in
the source; the two member constructors mirror the two sides of that union.
`objectE.inferredName` is the dynamic `__inferredTypeName` slot that the
code generator reads on object-literal nodes. -/
inductive Expr where
  | literal (value : JsLit)
  | identifier (name : String)
  | binary (op : String) (left right : Expr)
  | unary (op : String) (operand : Expr)
  | call (callee : Expr) (args : List Expr)
  | memberS (obj : Expr) (property : String) (computed : Bool)
  | memberE (obj : Expr) (property : Expr) (computed : Bool)
  | arrayE (elements : List Expr)
  | objectE (properties : List (String × Expr)) (inferredName : Option String)
  | conditional (test consequent alternate : Expr)
  | arrow (params : List String) (body : Expr) (isAsync : Bool)
  | assign (target value : Expr)
  | awaitE (argument : Expr)

/-- A function-declaration parameter: name with optional surface annotation. -/
structure Param where
  name : String
  tyAnn : Option TypeAnn

/-- Statement nodes.  `ifStmt.alternate` is `ASTNode[] | null` in the source;
`none` models `null` (an empty else-block is `some []`). -/
inductive Stmt where
  | typeDecl (name : String) (ann : TypeAnn)
  | interfaceDecl (name : String) (properties : List (String × TypeAnn))
  | varDecl (identifier : String) (constant : Bool) (ann : Option TypeAnn) (value : Expr)
  | funcDecl (name : String) (params : List Param) (returnAnn : Option TypeAnn)
      (body : List Stmt) (isAsync : Bool)
  | returnStmt (value : Option Expr)
  | ifStmt (condition : Expr) (consequent : List Stmt) (alternate : Option (List Stmt))
  | forStmt (loopVar : String) (iterable : Expr) (body : List Stmt) (isAsync : Bool)
  | exprStmt (expression : Expr)

/-- `ProgramNode` -/
structure ProgramNode where
  body : List Stmt

-- ============================================================================
-- Type checker state (src/src/compiler/type-checker.ts, class TypeChecker)
-- ============================================================================

/-- The mutable fields of a `TypeChecker` instance. -/
structure TypeChecker where
  symbolTable : List (String × Ty)
  customTypes : List (String × Ty)
  currentFunctionIsAsync : Bool
  allowTopLevelAwait : Bool

/-- The `TypeChecker` constructor: seed the symbol table with the context
types; `currentFunctionIsAsync` starts false, `allowTopLevelAwait` true
(the facade passes no options). -/
def TypeChecker.make (contextTypes : List (String × Ty)) : TypeChecker :=
  { symbolTable := contextTypes.foldl (fun tbl kv => jsSet tbl kv.1 kv.2) []
    customTypes := []
    currentFunctionIsAsync := false
    allowTopLevelAwait := true }

/-- `TypeChecker.registerType` -/
def TypeChecker.registerType (st : TypeChecker) (name : String) (t : Ty) : TypeChecker :=
  { st with customTypes := jsSet st.customTypes name t }

/-- `TypeChecker.registerFunction` -/
def TypeChecker.registerFunction (st : TypeChecker) (name : String) (params : List Ty)
    (returnType : Ty) (isAsync : Bool) : TypeChecker :=
  { st with symbolTable := jsSet st.symbolTable name (.func params returnType isAsync) }

/-- `TypeChecker.inferLiteral` -/
def inferLiteral : JsLit → Ty
  | .num _ => tyNumber
  | .str _ => tyString
  | .bool _ => tyBoolean
  | .null => tyNull

/-- `TypeChecker.inferIdentifier`: symbol table first; on a miss or an
unknown-kind hit fall back to the custom-type registry; else unknown. -/
def inferIdentifier (st : TypeChecker) (name : String) : Ty :=
  match jsGet st.symbolTable name with
  | some t =>
    if isUnknownKind t then
      match jsGet st.customTypes name with
      | some u => u
      | none => .unknown
    else t
  | none =>
    match jsGet st.customTypes name with
    | some u => u
    | none => .unknown

/-- `type.kind === 'primitive' && type.name === name` -/
def isPrimitiveNamed : Ty → String → Bool
  | .primitive n, s => n == s
  | _, _ => false

/-- `TypeChecker.inferBinaryExpression`, the result computation after both
operands are inferred: `+` is string if either operand is the string
primitive, arithmetic yields number, comparisons and logic yield boolean. -/
def binaryResultTy (op : String) (left right : Ty) : Ty :=
  if op == "+" || op == "-" || op == "*" || op == "/" || op == "%" then
    if op == "+" &&
        (isPrimitiveNamed left ("string") || isPrimitiveNamed right ("string")) then
      tyString
    else tyNumber
  else if op == "==" || op == "!=" || op == "<" || op == "<=" || op == ">" || op == ">=" then
    tyBoolean
  else if op == "&&" || op == "||" then
    tyBoolean
  else
    .unknown

/-- `type.kind === 'promise'` -/
def isPromiseKind : Ty → Bool
  | .promise _ => true
  | _ => false

/-- `iterableType.kind === 'promise' && iterableType.resolveType?.kind === 'array'`,
returning the element type of the wrapped array. -/
def promiseArrayElem : Ty → Option Ty
  | .promise (.array e) => some e
  | _ => none

/-- `iterableType.kind === 'array' && iterableType.elementType`. -/
def arrayElem : Ty → Option Ty
  | .array e => some e
  | _ => none

/-- The array-method table of `TypeChecker.inferCallExpression`: result type
of a recognized method called on an `Array` receiver, else `none`. -/
def arrayMethodTy (objectType : Ty) (method : String) : Option Ty :=
  match objectType with
  | .array elem =>
    if method == "filter" || method == "map" || method == "slice" || method == "concat" then
      some (.array elem)
    else if method == "find" || method == "at" then
      some elem
    else if method == "length" || method == "findIndex" || method == "indexOf" then
      some tyNumber
    else if method == "some" || method == "every" || method == "includes" then
      some tyBoolean
    else none
  | _ => none

/-- The tail of `inferCallExpression`: a recognized array method wins,
otherwise a function callee yields its return type, otherwise unknown.
A `method` that is the empty string is falsy in the source's
`if (method && ...)` test and is treated as absent. -/
def callResultTy (calleeType objectType : Ty) (method : Option String) : Ty :=
  match method with
  | some m =>
    if m != "" then
      match arrayMethodTy objectType m with
      | some t => t
      | none => callFallbackTy calleeType
    else callFallbackTy calleeType
  | none => callFallbackTy calleeType

where
  callFallbackTy (calleeType : Ty) : Ty :=
    match calleeType with
    | .func _ ret _ => ret
    | _ => .unknown

/-- The resolved computed-member key of `inferMemberExpression`: a string
key, a numeric index, or unresolvable. -/
inductive ResolvedProp where
  | rstr (s : String)
  | rnum
  | rnone

/-- Resolution of a string-typed `property` ("numeric string → index"). -/
def resolveStringProp (prop : String) : ResolvedProp :=
  if isIntegerString prop then .rnum else .rstr prop

/-- Resolution of an expression-typed `property` (only literals resolve). -/
def resolveExprProp : Expr → ResolvedProp
  | .literal (.num _) => .rnum
  | .literal (.str s) => .rstr s
  | _ => .rnone

/-- `inferMemberExpression`, non-computed case with a string property:
object property lookup, `.length` on arrays, else unknown. -/
def memberNonComputedTy (objectType : Ty) (prop : String) : Ty :=
  match objectType with
  | .object _ props =>
    match jsGet props prop with
    | some t => t
    | none => .unknown
  | .array _ => if prop == "length" then tyNumber else .unknown
  | _ => .unknown

/-- `inferMemberExpression`, computed case after key resolution. -/
def memberComputedTy (objectType : Ty) : ResolvedProp → Ty
  | .rstr s =>
    (match objectType with
     | .object _ props =>
       match jsGet props s with
       | some t => t
       | none => .unknown
     | .array _ => if s == "length" then tyNumber else .unknown
     | _ => .unknown)
  | .rnum =>
    (match objectType with
     | .array elem => elem
     | _ => .unknown)
  | .rnone => .unknown

mutual
/-- `TypeChecker.inferExpression`, with the checker's mutable state threaded
explicitly and thrown `TypeError`s as `Except.error`. -/
def inferExpression (st : TypeChecker) : Expr → Except String (Ty × TypeChecker)
  | .literal v => .ok (inferLiteral v, st)
  | .identifier name => .ok (inferIdentifier st name, st)
  | .binary op left right => do
    let (l, st1) ← inferExpression st left
    let (r, st2) ← inferExpression st1 right
    .ok (binaryResultTy op l r, st2)
  | .unary op operand => do
    let (o, st1) ← inferExpression st operand
    if op == "!" then .ok (tyBoolean, st1)
    else if op == "-" then .ok (tyNumber, st1)
    else .ok (o, st1)
  | .call callee _ => do
    let (calleeType, st1) ← inferExpression st callee
    match callee with
    | .memberS obj prop _ => do
      let (objectType, st2) ← inferExpression st1 obj
      .ok (callResultTy calleeType objectType (some prop), st2)
    | .memberE obj propE _ => do
      let (objectType, st2) ← inferExpression st1 obj
      let method : Option String :=
        match propE with
        | .literal (.str s) => some s
        | _ => none
      .ok (callResultTy calleeType objectType method, st2)
    | _ => .ok (callResultTy calleeType .unknown none, st1)
  | .memberS obj prop computed => do
    let (objectType, st1) ← inferExpression st obj
    if computed then
      .ok (memberComputedTy objectType (resolveStringProp prop), st1)
    else
      .ok (memberNonComputedTy objectType prop, st1)
  | .memberE obj propE computed => do
    let (objectType, st1) ← inferExpression st obj
    if computed then
      .ok (memberComputedTy objectType (resolveExprProp propE), st1)
    else
      -- Non-computed with a node-valued property: the source reads
      -- `objectType.properties[node.property]`, whose stringified object key
      -- matches no declared property, so the result is unknown.
      .ok (.unknown, st1)
  | .arrayE [] => .ok (.array .unknown, st)
  | .arrayE (e :: _) => do
    -- The source infers only `elements[0]`.
    let (t, st1) ← inferExpression st e
    .ok (.array t, st1)
  | .objectE props _ => do
    let (record, st1) ← inferObjectProps st [] props
    .ok (.object none record, st1)
  | .conditional _ consequent alternate => do
    -- The source does not infer the test expression.
    let (c, st1) ← inferExpression st consequent
    let (a, st2) ← inferExpression st1 alternate
    if typesEqual c a then .ok (c, st2)
    else .ok (.union [c, a], st2)
  | .arrow params body isAsync => do
    let savedSymbols := st.symbolTable
    let savedAsync := st.currentFunctionIsAsync
    let st1 : TypeChecker :=
      { st with
        currentFunctionIsAsync := isAsync
        symbolTable := params.foldl (fun tbl p => jsSet tbl p Ty.unknown) st.symbolTable }
    let (ret0, st2) ← inferExpression st1 body
    let returnType := if isAsync && !isPromiseKind ret0 then Ty.promise ret0 else ret0
    let st3 : TypeChecker :=
      { st2 with symbolTable := savedSymbols, currentFunctionIsAsync := savedAsync }
    .ok (.func (params.map fun _ => Ty.unknown) returnType isAsync, st3)
  | .assign target value => do
    let (valueType, st1) ← inferExpression st value
    match target with
    | .identifier name =>
      .ok (valueType, { st1 with symbolTable := jsSet st1.symbolTable name valueType })
    | _ => .ok (valueType, st1)
  | .awaitE argument => do
    if !st.currentFunctionIsAsync then
      .error ("await can only be used in async functions")
    else
      let (argType, st1) ← inferExpression st argument
      match argType with
      | .promise r => .ok (r, st1)
      | _ => .ok (argType, st1)

/-- The property loop of `inferObjectExpression`, building the record with
JS object-assignment semantics. -/
def inferObjectProps (st : TypeChecker) (record : List (String × Ty)) :
    List (String × Expr) → Except String (List (String × Ty) × TypeChecker)
  | [] => .ok (record, st)
  | (k, v) :: rest => do
    let (t, st1) ← inferExpression st v
    inferObjectProps st1 (jsSet record k t) rest
end

-- ============================================================================
-- Statement checking (src/src/compiler/type-checker.ts)
-- ============================================================================

/-- The interface-property loop of `checkInterfaceDeclaration`, building the
record with JS object-assignment semantics. -/
def interfaceProps (customTypes : List (String × Ty)) (record : List (String × Ty)) :
    List (String × TypeAnn) → List (String × Ty)
  | [] => record
  | (k, a) :: rest =>
    interfaceProps customTypes (jsSet record k (annotationToType customTypes a)) rest

/-- The parameter loop of `checkFunctionDeclaration`: resolve each parameter
annotation (unknown when absent), bind it, and collect the types in order. -/
def bindParams (customTypes : List (String × Ty)) (tbl : List (String × Ty)) :
    List Param → List Ty × List (String × Ty)
  | [] => ([], tbl)
  | p :: rest =>
    let pt := match p.tyAnn with
      | some a => annotationToType customTypes a
      | none => Ty.unknown
    let (pts, tbl') := bindParams customTypes (jsSet tbl p.name pt) rest
    (pt :: pts, tbl')

/-- The return-collection loop of `checkFunctionDeclaration`: it walks only
the top-level statements of the body and infers the value of each
`return` statement that has one. -/
def inferFuncReturns (st : TypeChecker) :
    List Stmt → Except String (List Ty × TypeChecker)
  | [] => .ok ([], st)
  | .returnStmt (some v) :: rest => do
    let (t, st1) ← inferExpression st v
    let (ts, st2) ← inferFuncReturns st1 rest
    .ok (t :: ts, st2)
  | _ :: rest => inferFuncReturns st rest

/-- `returnTypes.length > 0 ? (single or union) : unknown` — shared by
`checkFunctionDeclaration` and `inferReturnType`. -/
def combineReturnTys : List Ty → Ty
  | [] => .unknown
  | [t] => t
  | ts => .union ts

mutual
/-- `TypeChecker.checkStatement` with state threading; thrown `TypeError`s
become `Except.error`. -/
def checkStatement (st : TypeChecker) : Stmt → Except String (Ty × TypeChecker)
  | .typeDecl name ann =>
    let t := annotationToType st.customTypes ann
    .ok (t, { st with customTypes := jsSet st.customTypes name t })
  | .interfaceDecl name props =>
    let t : Ty := .object (some name) (interfaceProps st.customTypes [] props)
    .ok (t, { st with customTypes := jsSet st.customTypes name t })
  | .varDecl ident _ annOpt value => do
    let (valueType, st1) ← inferExpression st value
    match annOpt with
    | some ann =>
      let declaredType := annotationToType st1.customTypes ann
      if !isAssignable valueType declaredType then
        .error ("Cannot assign " ++ typeToString valueType ++ " to "
          ++ typeToString declaredType)
      else
        .ok (declaredType,
          { st1 with symbolTable := jsSet st1.symbolTable ident declaredType })
    | none =>
      .ok (valueType,
        { st1 with symbolTable := jsSet st1.symbolTable ident valueType })
  | .funcDecl name params returnAnn body isAsync => do
    let savedSymbols := st.symbolTable
    let savedAsync := st.currentFunctionIsAsync
    let (paramTypes, tbl) := bindParams st.customTypes st.symbolTable params
    let st1 : TypeChecker :=
      { st with currentFunctionIsAsync := isAsync, symbolTable := tbl }
    let (returnTypes, st2) ← inferFuncReturns st1 body
    let inferredReturnType := combineReturnTys returnTypes
    let returnType0 :=
      if isAsync && !isPromiseKind inferredReturnType then
        Ty.promise inferredReturnType
      else inferredReturnType
    let finish : Ty → Except String (Ty × TypeChecker) := fun rt =>
      let funcType : Ty := .func paramTypes rt isAsync
      .ok (funcType,
        { st2 with
          symbolTable := jsSet savedSymbols name funcType
          currentFunctionIsAsync := savedAsync })
    match returnAnn with
    | some ann =>
      let declaredReturnType := annotationToType st2.customTypes ann
      if !isAssignable returnType0 declaredReturnType then
        .error ("Function " ++ name ++ " returns " ++ typeToString returnType0
          ++ " but declared " ++ typeToString declaredReturnType)
      else finish declaredReturnType
    | none => finish returnType0
  | .returnStmt v =>
    match v with
    | some e => inferExpression st e
    | none => .ok (.unknown, st)
  | .ifStmt cond cons alt => do
    let (_, st1) ← inferExpression st cond
    let (lastC, st2) ← checkSeq st1 cons
    match alt with
    | some a => do
      let (lastA, st3) ← checkSeq st2 a
      .ok ((lastA.orElse fun _ => lastC).getD .unknown, st3)
    | none => .ok (lastC.getD .unknown, st2)
  | .forStmt v iter body isAsync => do
    let savedSymbols := st.symbolTable
    let (iterableType, st1) ← inferExpression st iter
    let runBody : Ty → Except String (Ty × TypeChecker) := fun itemType => do
      let st2 : TypeChecker :=
        { st1 with symbolTable := jsSet st1.symbolTable v itemType }
      let (last?, st3) ← checkSeq st2 body
      .ok (last?.getD .unknown, { st3 with symbolTable := savedSymbols })
    if isAsync then
      match promiseArrayElem iterableType with
      | some e =>
        if !st1.currentFunctionIsAsync then
          .error ("await can only be used in async functions")
        else runBody e
      | none =>
        match arrayElem iterableType with
        | some e => runBody e
        | none => .error ("for await...of requires an async iterable (Promise<T[]>)")
    else
      match arrayElem iterableType with
      | some e => runBody e
      | none => runBody .unknown
  | .exprStmt e => inferExpression st e

/-- Checking a statement list in order, returning the type of the last
statement (`none` for an empty list) — the `types` array of
`checkIfStatement` and the `lastType` loops of `check`/`checkForStatement`. -/
def checkSeq (st : TypeChecker) : List Stmt → Except String (Option Ty × TypeChecker)
  | [] => .ok (none, st)
  | s :: rest => do
    let (t, st1) ← checkStatement st s
    let (last?, st2) ← checkSeq st1 rest
    .ok (some (last?.getD t), st2)
end

/-- `TypeChecker.check`: enter with `currentFunctionIsAsync` set from
`allowTopLevelAwait`, walk the statements, restore the flag (the source's
`finally` also restores it on error; the post-error state is not tracked). -/
def TypeChecker.check (st : TypeChecker) (ast : ProgramNode) :
    Except String (Ty × TypeChecker) := do
  let savedAsync := st.currentFunctionIsAsync
  let st0 : TypeChecker := { st with currentFunctionIsAsync := st.allowTopLevelAwait }
  let (last?, st1) ← checkSeq st0 ast.body
  .ok (last?.getD .unknown, { st1 with currentFunctionIsAsync := savedAsync })

mutual
/-- The `collectReturns` closure of `inferReturnType`: walk a statement list,
descending into if-branches and for-bodies but not into function
declarations, re-inferring each returned expression in encounter order. -/
def collectReturns (st : TypeChecker) :
    List Stmt → Except String (List Ty × TypeChecker)
  | [] => .ok ([], st)
  | s :: rest => do
    let (ts1, st1) ← collectFromStmt st s
    let (ts2, st2) ← collectReturns st1 rest
    .ok (ts1 ++ ts2, st2)

/-- One node of the `collectReturns` walk. -/
def collectFromStmt (st : TypeChecker) : Stmt → Except String (List Ty × TypeChecker)
  | .returnStmt (some v) => do
    let (t, st1) ← inferExpression st v
    .ok ([t], st1)
  | .ifStmt _ cons alt => do
    let (ts1, st1) ← collectReturns st cons
    match alt with
    | some a => do
      let (ts2, st2) ← collectReturns st1 a
      .ok (ts1 ++ ts2, st2)
    | none => .ok (ts1, st1)
  | .forStmt _ _ body _ => collectReturns st body
  | _ => .ok ([], st)
end

/-- `TypeChecker.inferReturnType`: run `check`, then collect and combine the
reachable return types. -/
def TypeChecker.inferReturnType (st : TypeChecker) (ast : ProgramNode) :
    Except String (Ty × TypeChecker) := do
  let (_, st1) ← st.check ast
  let (tys, st2) ← collectReturns st1 ast.body
  .ok (combineReturnTys tys, st2)

-- ============================================================================
-- Lexer (src/unnamed/part_003 — the async-aware lexer the parser requires)
-- ============================================================================

/-- The token kinds of the async-aware lexer. -/
inductive TokType where
  | NUMBER | STRING | TRUE | FALSE | NULL
  | IDENTIFIER | LET | CONST | IF | ELSE | FOR | IN | RETURN | FN
  | TYPE | INTERFACE | ASYNC | AWAIT
  | PLUS | MINUS | STAR | SLASH | PERCENT
  | EQUALS | EQUALS_EQUALS | BANG_EQUALS
  | LESS | LESS_EQUALS | GREATER | GREATER_EQUALS
  | AMPERSAND_AMPERSAND | PIPE_PIPE | BANG | QUESTION
  | LPAREN | RPAREN | LBRACE | RBRACE | LBRACKET | RBRACKET
  | COMMA | DOT | COLON | RETURN_ARROW | FAT_ARROW | PIPE
  | EOF
deriving DecidableEq, Repr

/-- The enum value string of a token kind (used in parser error messages). -/
def TokType.str : TokType → String
  | .NUMBER => "NUMBER" | .STRING => "STRING" | .TRUE => "TRUE" | .FALSE => "FALSE"
  | .NULL => "NULL" | .IDENTIFIER => "IDENTIFIER" | .LET => "LET" | .CONST => "CONST"
  | .IF => "IF" | .ELSE => "ELSE" | .FOR => "FOR" | .IN => "IN" | .RETURN => "RETURN"
  | .FN => "FN" | .TYPE => "TYPE" | .INTERFACE => "INTERFACE" | .ASYNC => "ASYNC"
  | .AWAIT => "AWAIT" | .PLUS => "PLUS" | .MINUS => "MINUS" | .STAR => "STAR"
  | .SLASH => "SLASH" | .PERCENT => "PERCENT" | .EQUALS => "EQUALS"
  | .EQUALS_EQUALS => "EQUALS_EQUALS" | .BANG_EQUALS => "BANG_EQUALS"
  | .LESS => "LESS" | .LESS_EQUALS => "LESS_EQUALS" | .GREATER => "GREATER"
  | .GREATER_EQUALS => "GREATER_EQUALS" | .AMPERSAND_AMPERSAND => "AMPERSAND_AMPERSAND"
  | .PIPE_PIPE => "PIPE_PIPE" | .BANG => "BANG" | .QUESTION => "QUESTION"
  | .LPAREN => "LPAREN" | .RPAREN => "RPAREN" | .LBRACE => "LBRACE"
  | .RBRACE => "RBRACE" | .LBRACKET => "LBRACKET" | .RBRACKET => "RBRACKET"
  | .COMMA => "COMMA" | .DOT => "DOT" | .COLON => "COLON"
  | .RETURN_ARROW => "RETURN_ARROW" | .FAT_ARROW => "FAT_ARROW" | .PIPE => "PIPE"
  | .EOF => "EOF"

/-- A lexer token. -/
structure Token where
  type : TokType
  value : String
  line : Nat
  column : Nat
deriving DecidableEq, Repr

/-- The lexer's mutable position: remaining characters plus line/column. -/
structure LexState where
  rest : List Char
  line : Nat
  column : Nat

/-- `Lexer.isDigit` -/
def lexIsDigit (c : Char) : Bool := '0' ≤ c && c ≤ '9'

/-- `Lexer.isAlpha` -/
def lexIsAlpha (c : Char) : Bool :=
  ('a' ≤ c && c ≤ 'z') || ('A' ≤ c && c ≤ 'Z') || c == '_'

/-- `Lexer.isAlphaNumeric` -/
def lexIsAlphaNum (c : Char) : Bool := lexIsAlpha c || lexIsDigit c

/-- The inner loop of the line-comment skip: consume to (not including) the
next newline, tracking the column. -/
def skipToNewline : List Char → Nat → List Char × Nat
  | [], col => ([], col)
  | c :: r, col => if c == '\n' then (c :: r, col) else skipToNewline r (col + 1)

/-- `Lexer.skipWhitespace`: spaces, tabs, carriage returns advance; newline
bumps the line and resets the column; `//` comments run to end of line. -/
def skipWhitespace : Nat → LexState → LexState
  | 0, s => s
  | fuel + 1, s =>
    match s.rest with
    | [] => s
    | c :: r =>
      if c == ' ' || c == '\t' || c == '\r' then
        skipWhitespace fuel { s with rest := r, column := s.column + 1 }
      else if c == '\n' then
        skipWhitespace fuel { rest := r, line := s.line + 1, column := 1 }
      else if c == '/' && (match r with | '/' :: _ => true | _ => false) then
        let (r', col') := skipToNewline (c :: r) s.column
        skipWhitespace fuel { s with rest := r', column := col' }
      else s

/-- The digit-consuming loop of `scanNumber`. -/
def takeDigits : List Char → String → Nat → String × List Char × Nat
  | [], acc, col => (acc, [], col)
  | c :: r, acc, col =>
    if lexIsDigit c then takeDigits r (acc.push c) (col + 1) else (acc, c :: r, col)

/-- `Lexer.scanNumber` (the current character is the first digit; a leading
minus has already been consumed when `negative` is set). -/
def scanNumber (negative : Bool) (s : LexState) (startColumn : Nat) : Token × LexState :=
  let v0 : String := if negative then "-" else ""
  let (v1, r1, col1) := takeDigits s.rest v0 s.column
  match r1 with
  | '.' :: d :: r2 =>
    if lexIsDigit d then
      let (v2, r3, col3) := takeDigits (d :: r2) (v1.push '.') (col1 + 1)
      (⟨.NUMBER, v2, s.line, startColumn⟩, { s with rest := r3, column := col3 })
    else (⟨.NUMBER, v1, s.line, startColumn⟩, { s with rest := r1, column := col1 })
  | _ => (⟨.NUMBER, v1, s.line, startColumn⟩, { s with rest := r1, column := col1 })

/-- The character loop of `scanString`: `\n`/`\t` escapes decode, any other
escaped character is kept; an unterminated string is an error. -/
def scanStringLoop (quote : Char) (line : Nat) :
    List Char → String → Nat → Except String (String × List Char × Nat)
  | [], _, _ => .error ("Unterminated string at line " ++ toString line)
  | c :: r, acc, col =>
    if c == quote then .ok (acc, r, col + 1)
    else if c == '\\' then
      match r with
      | [] => .error ("Unterminated string at line " ++ toString line)
      | e :: r2 =>
        let decoded := if e == 'n' then '\n' else if e == 't' then '\t' else e
        scanStringLoop quote line r2 (acc.push decoded) (col + 2)
    else scanStringLoop quote line r (acc.push c) (col + 1)

/-- The character loop of `scanIdentifier`. -/
def takeAlphaNum : List Char → String → Nat → String × List Char × Nat
  | [], acc, col => (acc, [], col)
  | c :: r, acc, col =>
    if lexIsAlphaNum c then takeAlphaNum r (acc.push c) (col + 1) else (acc, c :: r, col)

/-- `Lexer.scanIdentifier`, including the keyword table (with `async`,
`await`, `type`, `interface`). -/
def scanIdentifier (s : LexState) : Token × LexState :=
  let (v, r, col) := takeAlphaNum s.rest "" s.column
  let kind : TokType :=
    if v == "let" then .LET else if v == "const" then .CONST
    else if v == "if" then .IF else if v == "else" then .ELSE
    else if v == "for" then .FOR else if v == "in" then .IN
    else if v == "return" then .RETURN else if v == "fn" then .FN
    else if v == "type" then .TYPE else if v == "interface" then .INTERFACE
    else if v == "true" then .TRUE else if v == "false" then .FALSE
    else if v == "null" then .NULL else if v == "async" then .ASYNC
    else if v == "await" then .AWAIT else .IDENTIFIER
  (⟨kind, v, s.line, s.column⟩, { s with rest := r, column := col })

/-- A one-character token (the `singleChar` table of `nextToken`). -/
def singleCharTok : Char → Option TokType
  | '(' => some .LPAREN | ')' => some .RPAREN
  | '{' => some .LBRACE | '}' => some .RBRACE
  | '[' => some .LBRACKET | ']' => some .RBRACKET
  | ',' => some .COMMA | '.' => some .DOT | ':' => some .COLON
  | '+' => some .PLUS | '*' => some .STAR | '/' => some .SLASH
  | '%' => some .PERCENT | '?' => some .QUESTION
  | _ => none

/-- `Lexer.nextToken`.  The `&`-followed-by-non-`&` path advances, backs up
and falls through every later test, ending at the unexpected-character
error with the entry column, which is what the net-zero movement yields. -/
def nextToken (s : LexState) : Except String (Token × LexState) :=
  match s.rest with
  | [] => .error ("Unexpected character at end of input")
  | c :: r =>
    let startColumn := s.column
    let one : TokType → Token × LexState := fun tt =>
      (⟨tt, String.singleton c, s.line, startColumn⟩,
        { s with rest := r, column := s.column + 1 })
    let two : TokType → String → Token × LexState := fun tt v =>
      (⟨tt, v, s.line, startColumn⟩,
        { s with rest := r.tail, column := s.column + 2 })
    match singleCharTok c with
    | some tt => .ok (one tt)
    | none =>
      if c == '=' then
        match r with
        | '=' :: _ => .ok (two .EQUALS_EQUALS ("=="))
        | '>' :: _ => .ok (two .FAT_ARROW ("=>"))
        | _ => .ok (one .EQUALS)
      else if c == '!' then
        match r with
        | '=' :: _ => .ok (two .BANG_EQUALS ("!="))
        | _ => .ok (one .BANG)
      else if c == '<' then
        match r with
        | '=' :: _ => .ok (two .LESS_EQUALS ("<="))
        | _ => .ok (one .LESS)
      else if c == '>' then
        match r with
        | '=' :: _ => .ok (two .GREATER_EQUALS (">="))
        | _ => .ok (one .GREATER)
      else if c == '&' && (match r with | '&' :: _ => true | _ => false) then
        .ok (two .AMPERSAND_AMPERSAND ("&&"))
      else if c == '|' then
        match r with
        | '|' :: _ => .ok (two .PIPE_PIPE ("||"))
        | _ => .ok (one .PIPE)
      else if c == '-' then
        match r with
        | d :: _ =>
          if lexIsDigit d then
            .ok (scanNumber true { s with rest := r, column := s.column + 1 } startColumn)
          else if d == '>' then .ok (two .RETURN_ARROW ("->"))
          else .ok (one .MINUS)
        | [] => .ok (one .MINUS)
      else if c == '"' || c == '\'' then do
        let (v, r2, col2) ← scanStringLoop c s.line r "" (s.column + 1)
        .ok (⟨.STRING, v, s.line, startColumn⟩, { s with rest := r2, column := col2 })
      else if lexIsDigit c then
        .ok (scanNumber false s startColumn)
      else if lexIsAlpha c then
        .ok (scanIdentifier s)
      else
        .error ("Unexpected character '" ++ String.singleton c ++ "' at line "
          ++ toString s.line ++ ", column " ++ toString s.column)

/-- The `tokenize` loop: skip trivia, scan the next token, repeat; append the
terminal EOF token with the final position. -/
def tokenizeLoop : Nat → LexState → List Token → Except String (List Token)
  | 0, _, _ => .error ("Internal: lexer fuel exhausted")
  | fuel + 1, s, acc =>
    if s.rest.isEmpty then
      .ok (acc ++ [⟨.EOF, "", s.line, s.column⟩])
    else
      let s1 := skipWhitespace (s.rest.length + 1) s
      if s1.rest.isEmpty then
        .ok (acc ++ [⟨.EOF, "", s1.line, s1.column⟩])
      else do
        let (tok, s2) ← nextToken s1
        tokenizeLoop fuel s2 (acc ++ [tok])

/-- `Lexer.tokenize` on a source string. -/
def tokenize (source : String) : Except String (List Token) :=
  tokenizeLoop (source.length + 2) ⟨source.toList, 1, 1⟩ []

-- ============================================================================
-- Parser (src/unnamed/part_002, class Parser)
-- ============================================================================

/-- The parser's position in the token stream. -/
structure PState where
  tokens : List Token
  pos : Nat

/-- Placeholder for an out-of-range token read (unreachable behind the
EOF guard). -/
def defaultTok : Token := ⟨.EOF, "", 0, 0⟩

/-- `Parser.peek` -/
def ppeek (ps : PState) : Token := ps.tokens.getD ps.pos defaultTok

/-- `Parser.previous` -/
def pprev (ps : PState) : Token := ps.tokens.getD (ps.pos - 1) defaultTok

/-- `Parser.isAtEnd` -/
def pIsAtEnd (ps : PState) : Bool := (ppeek ps).type == .EOF

/-- `Parser.advance`: move past the current token unless at EOF and return
the token just consumed (`previous`). -/
def padvance (ps : PState) : Token × PState :=
  if pIsAtEnd ps then (pprev ps, ps)
  else (ppeek ps, { ps with pos := ps.pos + 1 })

/-- `Parser.check` -/
def pcheck (ps : PState) (t : TokType) : Bool :=
  if pIsAtEnd ps then false else (ppeek ps).type == t

/-- `Parser.match` with one alternative. -/
def pmatch1 (ps : PState) (t : TokType) : Bool × PState :=
  if pcheck ps t then (true, (padvance ps).2) else (false, ps)

/-- `Parser.match` over a list of alternatives. -/
def pmatchList (ps : PState) : List TokType → Bool × PState
  | [] => (false, ps)
  | t :: rest =>
    if pcheck ps t then (true, (padvance ps).2) else pmatchList ps rest

/-- `Parser.consume`: expected-token check with the source's error shape. -/
def pconsume (ps : PState) (t : TokType) (msg : String) :
    Except String (Token × PState) :=
  if pcheck ps t then .ok (padvance ps)
  else .error (msg ++ " at line " ++ toString (ppeek ps).line ++ ", got "
    ++ (ppeek ps).type.str)

/-- Generic fuel-exhaustion error of the fueled parser functions (never hit
at the fuel the entry points pass; present only to make recursion
structural). -/
def pfuelErr {α : Type} : Except String α :=
  .error ("Internal: parser fuel exhausted")

/-- JavaScript `String(value)` on a literal value, as used when lowering a
literal index to a computed member key. -/
def litToDisplay : JsLit → String
  | .num s => s
  | .str s => s
  | .bool b => if b then "true" else "false"
  | .null => "null"

mutual
/-- `Parser.parseTypeAnnotation`: `Promise<T>`, otherwise a `|`-separated
union of single types. -/
def parseTypeAnnF : Nat → PState → Except String (TypeAnn × PState)
  | 0, _ => pfuelErr
  | fuel + 1, ps =>
    if pcheck ps .IDENTIFIER && (ppeek ps).value == "Promise" then do
      let (_, ps1) := padvance ps
      let (_, ps2) ← pconsume ps1 .LESS ("Expected < after Promise")
      let (resolveType, ps3) ← parseTypeAnnF fuel ps2
      let (_, ps4) ← pconsume ps3 .GREATER ("Expected > after Promise type")
      .ok (.promiseT resolveType, ps4)
    else do
      let (first, ps1) ← parseSingleTypeF fuel ps
      let (more, ps2) ← parseUnionTail fuel ps1 []
      match more with
      | [] => .ok (first, ps2)
      | _ => .ok (.unionT (first :: more), ps2)

/-- The `while (match(PIPE))` loop of `parseTypeAnnotation`. -/
def parseUnionTail : Nat → PState → List TypeAnn →
    Except String (List TypeAnn × PState)
  | 0, _, _ => pfuelErr
  | fuel + 1, ps, acc =>
    let (m, ps1) := pmatch1 ps .PIPE
    if m then do
      let (t, ps2) ← parseSingleTypeF fuel ps1
      parseUnionTail fuel ps2 (acc ++ [t])
    else .ok (acc, ps)

/-- `Parser.parseSingleType`: a base type with optional postfix `[]`. -/
def parseSingleTypeF : Nat → PState → Except String (TypeAnn × PState)
  | 0, _ => pfuelErr
  | fuel + 1, ps => do
    let (baseType, ps1) ← parseBaseTypeF fuel ps
    let (m, ps2) := pmatch1 ps1 .LBRACKET
    if m then do
      let (_, ps3) ← pconsume ps2 .RBRACKET ("Expected ] after [")
      .ok (.arrayT baseType, ps3)
    else .ok (baseType, ps1)

/-- `Parser.parseBaseType`: primitive keyword, `null`, inline object type,
or a bare identifier as a type reference. -/
def parseBaseTypeF : Nat → PState → Except String (TypeAnn × PState)
  | 0, _ => pfuelErr
  | fuel + 1, ps =>
    let token := ppeek ps
    if token.type == .IDENTIFIER &&
        (token.value == "number" || token.value == "string" ||
         token.value == "boolean" || token.value == "null") then
      let (_, ps1) := padvance ps
      let n : PrimName :=
        if token.value == "number" then .number
        else if token.value == "string" then .string
        else if token.value == "boolean" then .boolean
        else .nullName
      .ok (.primitiveT n, ps1)
    else if token.type == .NULL then
      let (_, ps1) := padvance ps
      .ok (.primitiveT .nullName, ps1)
    else
      let (mBrace, ps1) := pmatch1 ps .LBRACE
      if mBrace then do
        let (props, ps2) ← parseObjAnnProps fuel ps1 []
        let (_, ps3) ← pconsume ps2 .RBRACE ("Expected \x7d")
        .ok (.objectT props, ps3)
      else if pcheck ps .IDENTIFIER then
        let (nameTok, ps1') := padvance ps
        .ok (.typeReference nameTok.value, ps1')
      else
        .error ("Expected type " ++ "annotation at line " ++ toString token.line)

/-- The property loop of an inline object type. -/
def parseObjAnnProps : Nat → PState → List (String × TypeAnn) →
    Except String (List (String × TypeAnn) × PState)
  | 0, _, _ => pfuelErr
  | fuel + 1, ps, acc =>
    if !pcheck ps .RBRACE && !pIsAtEnd ps then do
      let (keyTok, ps1) ← pconsume ps .IDENTIFIER ("Expected property name")
      let (_, ps2) ← pconsume ps1 .COLON ("Expected : after property name")
      let (valueType, ps3) ← parseTypeAnnF fuel ps2
      let (_, ps4) := pmatch1 ps3 .COMMA
      parseObjAnnProps fuel ps4 (acc ++ [(keyTok.value, valueType)])
    else .ok (acc, ps)
end

mutual
/-- `Parser.expression` (delegates to assignment). -/
def parseExpression : Nat → PState → Except String (Expr × PState)
  | 0, _ => pfuelErr
  | fuel + 1, ps => parseAssignment fuel ps

/-- `Parser.assignment`: right-associative `=`. -/
def parseAssignment : Nat → PState → Except String (Expr × PState)
  | 0, _ => pfuelErr
  | fuel + 1, ps => do
    let (e, ps1) ← parseConditional fuel ps
    let (m, ps2) := pmatch1 ps1 .EQUALS
    if m then do
      let (v, ps3) ← parseAssignment fuel ps2
      .ok (.assign e v, ps3)
    else .ok (e, ps1)

/-- `Parser.conditional`: `test ? consequent : alternate`. -/
def parseConditional : Nat → PState → Except String (Expr × PState)
  | 0, _ => pfuelErr
  | fuel + 1, ps => do
    let (e, ps1) ← parseLogicalOr fuel ps
    let (m, ps2) := pmatch1 ps1 .QUESTION
    if m then do
      let (c, ps3) ← parseExpression fuel ps2
      let (_, ps4) ← pconsume ps3 .COLON ("Expected : in ternary expression")
      let (a, ps5) ← parseExpression fuel ps4
      .ok (.conditional e c a, ps5)
    else .ok (e, ps1)

/-- `Parser.logicalOr` -/
def parseLogicalOr : Nat → PState → Except String (Expr × PState)
  | 0, _ => pfuelErr
  | fuel + 1, ps => do
    let (l, ps1) ← parseLogicalAnd fuel ps
    orLoop fuel l ps1

/-- The `while (match(PIPE_PIPE))` loop. -/
def orLoop : Nat → Expr → PState → Except String (Expr × PState)
  | 0, _, _ => pfuelErr
  | fuel + 1, left, ps =>
    let (m, ps1) := pmatch1 ps .PIPE_PIPE
    if m then do
      let op := (pprev ps1).value
      let (r, ps2) ← parseLogicalAnd fuel ps1
      orLoop fuel (.binary op left r) ps2
    else .ok (left, ps)

/-- `Parser.logicalAnd` -/
def parseLogicalAnd : Nat → PState → Except String (Expr × PState)
  | 0, _ => pfuelErr
  | fuel + 1, ps => do
    let (l, ps1) ← parseEquality fuel ps
    andLoop fuel l ps1

/-- The `while (match(AMPERSAND_AMPERSAND))` loop. -/
def andLoop : Nat → Expr → PState → Except String (Expr × PState)
  | 0, _, _ => pfuelErr
  | fuel + 1, left, ps =>
    let (m, ps1) := pmatch1 ps .AMPERSAND_AMPERSAND
    if m then do
      let op := (pprev ps1).value
      let (r, ps2) ← parseEquality fuel ps1
      andLoop fuel (.binary op left r) ps2
    else .ok (left, ps)

/-- `Parser.equality` -/
def parseEquality : Nat → PState → Except String (Expr × PState)
  | 0, _ => pfuelErr
  | fuel + 1, ps => do
    let (l, ps1) ← parseComparison fuel ps
    eqLoop fuel l ps1

/-- The `while (match(EQUALS_EQUALS, BANG_EQUALS))` loop. -/
def eqLoop : Nat → Expr → PState → Except String (Expr × PState)
  | 0, _, _ => pfuelErr
  | fuel + 1, left, ps =>
    let (m, ps1) := pmatchList ps [.EQUALS_EQUALS, .BANG_EQUALS]
    if m then do
      let op := (pprev ps1).value
      let (r, ps2) ← parseComparison fuel ps1
      eqLoop fuel (.binary op left r) ps2
    else .ok (left, ps)

/-- `Parser.comparison` -/
def parseComparison : Nat → PState → Except String (Expr × PState)
  | 0, _ => pfuelErr
  | fuel + 1, ps => do
    let (l, ps1) ← parseAdditive fuel ps
    compLoop fuel l ps1

/-- The `while (match(LESS, LESS_EQUALS, GREATER, GREATER_EQUALS))` loop. -/
def compLoop : Nat → Expr → PState → Except String (Expr × PState)
  | 0, _, _ => pfuelErr
  | fuel + 1, left, ps =>
    let (m, ps1) := pmatchList ps [.LESS, .LESS_EQUALS, .GREATER, .GREATER_EQUALS]
    if m then do
      let op := (pprev ps1).value
      let (r, ps2) ← parseAdditive fuel ps1
      compLoop fuel (.binary op left r) ps2
    else .ok (left, ps)

/-- `Parser.additive` -/
def parseAdditive : Nat → PState → Except String (Expr × PState)
  | 0, _ => pfuelErr
  | fuel + 1, ps => do
    let (l, ps1) ← parseMultiplicative fuel ps
    addLoop fuel l ps1

/-- The `while (match(PLUS, MINUS))` loop. -/
def addLoop : Nat → Expr → PState → Except String (Expr × PState)
  | 0, _, _ => pfuelErr
  | fuel + 1, left, ps =>
    let (m, ps1) := pmatchList ps [.PLUS, .MINUS]
    if m then do
      let op := (pprev ps1).value
      let (r, ps2) ← parseMultiplicative fuel ps1
      addLoop fuel (.binary op left r) ps2
    else .ok (left, ps)

/-- `Parser.multiplicative` -/
def parseMultiplicative : Nat → PState → Except String (Expr × PState)
  | 0, _ => pfuelErr
  | fuel + 1, ps => do
    let (l, ps1) ← parseUnary fuel ps
    mulLoop fuel l ps1

/-- The `while (match(STAR, SLASH, PERCENT))` loop. -/
def mulLoop : Nat → Expr → PState → Except String (Expr × PState)
  | 0, _, _ => pfuelErr
  | fuel + 1, left, ps =>
    let (m, ps1) := pmatchList ps [.STAR, .SLASH, .PERCENT]
    if m then do
      let op := (pprev ps1).value
      let (r, ps2) ← parseUnary fuel ps1
      mulLoop fuel (.binary op left r) ps2
    else .ok (left, ps)

/-- `Parser.unary`: `!`, `-`, and the `await` expression. -/
def parseUnary : Nat → PState → Except String (Expr × PState)
  | 0, _ => pfuelErr
  | fuel + 1, ps =>
    let (m, ps1) := pmatchList ps [.BANG, .MINUS]
    if m then do
      let op := (pprev ps1).value
      let (o, ps2) ← parseUnary fuel ps1
      .ok (.unary op o, ps2)
    else
      let (mAwait, ps2) := pmatch1 ps .AWAIT
      if mAwait then do
        let (a, ps3) ← parseUnary fuel ps2
        .ok (.awaitE a, ps3)
      else parseCallExpr fuel ps

/-- `Parser.call`: a member chain with interleaved call argument lists. -/
def parseCallExpr : Nat → PState → Except String (Expr × PState)
  | 0, _ => pfuelErr
  | fuel + 1, ps => do
    let (e, ps1) ← parseMemberExpr fuel ps
    callLoop fuel e ps1

/-- The `while (match(LPAREN))` loop of `call`. -/
def callLoop : Nat → Expr → PState → Except String (Expr × PState)
  | 0, _, _ => pfuelErr
  | fuel + 1, e, ps =>
    let (m, ps1) := pmatch1 ps .LPAREN
    if m then do
      let (args, ps2) ←
        if pcheck ps1 .RPAREN then pure (([] : List Expr), ps1)
        else parseArgsList fuel ps1 []
      let (_, ps3) ← pconsume ps2 .RPAREN ("Expected ) after arguments")
      callLoop fuel (.call e args) ps3
    else .ok (e, ps)

/-- The `do … while (match(COMMA))` argument loop of `call`. -/
def parseArgsList : Nat → PState → List Expr → Except String (List Expr × PState)
  | 0, _, _ => pfuelErr
  | fuel + 1, ps, acc => do
    let (e, ps1) ← parseExpression fuel ps
    let (m, ps2) := pmatch1 ps1 .COMMA
    if m then parseArgsList fuel ps2 (acc ++ [e])
    else .ok (acc ++ [e], ps1)

/-- `Parser.member`: `.name` access and literal-index bracket access; a
non-literal bracket index is rejected. -/
def parseMemberExpr : Nat → PState → Except String (Expr × PState)
  | 0, _ => pfuelErr
  | fuel + 1, ps => do
    let (e, ps1) ← parsePrimary fuel ps
    memberLoop fuel e ps1

/-- The member-chain loop of `Parser.member`. -/
def memberLoop : Nat → Expr → PState → Except String (Expr × PState)
  | 0, _, _ => pfuelErr
  | fuel + 1, e, ps =>
    let (mDot, ps1) := pmatch1 ps .DOT
    if mDot then do
      let (ptok, ps2) ← pconsume ps1 .IDENTIFIER ("Expected property name")
      memberLoop fuel (.memberS e ptok.value false) ps2
    else
      let (mBr, ps1') := pmatch1 ps .LBRACKET
      if mBr then do
        let (idx, ps2) ← parseExpression fuel ps1'
        let (_, ps3) ← pconsume ps2 .RBRACKET ("Expected ] after index")
        match idx with
        | .literal v => memberLoop fuel (.memberS e (litToDisplay v) true) ps3
        | _ => .error ("Complex computed member access not yet supported")
      else .ok (e, ps)

/-- The `do … while (match(COMMA))` element loop of an array literal. -/
def parseArrayElems : Nat → PState → List Expr → Except String (List Expr × PState)
  | 0, _, _ => pfuelErr
  | fuel + 1, ps, acc => do
    let (e, ps1) ← parseExpression fuel ps
    let (m, ps2) := pmatch1 ps1 .COMMA
    if m then parseArrayElems fuel ps2 (acc ++ [e])
    else .ok (acc ++ [e], ps1)

/-- The `do … while (match(COMMA))` property loop of an object literal. -/
def parseObjProps : Nat → PState → List (String × Expr) →
    Except String (List (String × Expr) × PState)
  | 0, _, _ => pfuelErr
  | fuel + 1, ps, acc => do
    let (keyTok, ps1) ← pconsume ps .IDENTIFIER ("Expected property key")
    let (_, ps2) ← pconsume ps1 .COLON ("Expected : after property key")
    let (v, ps3) ← parseExpression fuel ps2
    let (m, ps4) := pmatch1 ps3 .COMMA
    if m then parseObjProps fuel ps4 (acc ++ [(keyTok.value, v)])
    else .ok (acc ++ [(keyTok.value, v)], ps3)

/-- The `while (match(COMMA)) consume(IDENTIFIER, 'Expected parameter')`
loop shared by the arrow-parameter attempts (a failing consume throws and
is not caught, so it aborts the whole parse). -/
def parseArrowParamsTail : Nat → PState → List String →
    Except String (List String × PState)
  | 0, _, _ => pfuelErr
  | fuel + 1, ps, acc =>
    let (m, ps1) := pmatch1 ps .COMMA
    if m then do
      let (t, ps2) ← pconsume ps1 .IDENTIFIER ("Expected parameter")
      parseArrowParamsTail fuel ps2 (acc ++ [t.value])
    else .ok (acc, ps)

/-- The `do … while (match(COMMA))` consume-based parameter loop of an
async arrow function. -/
def parseConsumeParams : Nat → PState → List String →
    Except String (List String × PState)
  | 0, _, _ => pfuelErr
  | fuel + 1, ps, acc => do
    let (t, ps1) ← pconsume ps .IDENTIFIER ("Expected parameter")
    let (m, ps2) := pmatch1 ps1 .COMMA
    if m then parseConsumeParams fuel ps2 (acc ++ [t.value])
    else .ok (acc ++ [t.value], ps1)

/-- `Parser.primary`: literals, async/plain arrow functions, identifiers,
grouped expressions with a single backtrack anchor at the opening paren,
array literals and object literals. -/
def parsePrimary : Nat → PState → Except String (Expr × PState)
  | 0, _ => pfuelErr
  | fuel + 1, ps =>
    let (mTrue, psT) := pmatch1 ps .TRUE
    if mTrue then .ok (.literal (.bool true), psT)
    else
    let (mFalse, psF) := pmatch1 ps .FALSE
    if mFalse then .ok (.literal (.bool false), psF)
    else
    let (mNull, psN) := pmatch1 ps .NULL
    if mNull then .ok (.literal .null, psN)
    else
    let (mNum, psNum) := pmatch1 ps .NUMBER
    if mNum then .ok (.literal (.num (pprev psNum).value), psNum)
    else
    let (mStr, psStr) := pmatch1 ps .STRING
    if mStr then .ok (.literal (.str (pprev psStr).value), psStr)
    else
    let (mAsync, psA) := pmatch1 ps .ASYNC
    if mAsync then
      if pcheck psA .IDENTIFIER then
        let (nameTok, ps2) := padvance psA
        let (mArrow, ps3) := pmatch1 ps2 .FAT_ARROW
        if mArrow then do
          let (body, ps4) ← parseExpression fuel ps3
          .ok (.arrow [nameTok.value] body true, ps4)
        else .error ("Expected => after async parameter")
      else
        let (mLp, ps2) := pmatch1 psA .LPAREN
        if mLp then do
          let (params, ps3) ←
            if pcheck ps2 .RPAREN then pure (([] : List String), ps2)
            else parseConsumeParams fuel ps2 []
          let (_, ps4) ← pconsume ps3 .RPAREN ("Expected ) after parameters")
          let (_, ps5) ← pconsume ps4 .FAT_ARROW ("Expected => after async parameters")
          let (body, ps6) ← parseExpression fuel ps5
          .ok (.arrow params body true, ps6)
        else .error ("Expected identifier or ( after async")
    else
    let (mIdent, psI) := pmatch1 ps .IDENTIFIER
    if mIdent then
      let name := (pprev psI).value
      let (mArrow, ps2) := pmatch1 psI .FAT_ARROW
      if mArrow then do
        let (body, ps3) ← parseExpression fuel ps2
        .ok (.arrow [name] body false, ps3)
      else .ok (.identifier name, psI)
    else
    let (mLp, psL) := pmatch1 ps .LPAREN
    if mLp then do
      -- speculative arrow-parameter parse with a backtrack anchor at psL
      let (params, psP) ←
        if !pcheck psL .RPAREN then
          if pcheck psL .IDENTIFIER then
            let (t, ps2) := padvance psL
            parseArrowParamsTail fuel ps2 [t.value]
          else pure (([] : List String), psL)
        else pure (([] : List String), psL)
      let (mRp, ps3) := pmatch1 psP .RPAREN
      let attempt ←
        if mRp then
          let (mFat, ps4) := pmatch1 ps3 .FAT_ARROW
          if mFat then do
            let (body, ps5) ← parseExpression fuel ps4
            pure (some ((Expr.arrow params body false), ps5))
          else pure none
        else pure none
      match attempt with
      | some r => .ok r
      | none => do
        -- not an arrow function: backtrack and parse a grouped expression
        let (e, psE) ← parseExpression fuel psL
        let (_, psE2) ← pconsume psE .RPAREN ("Expected ) after expression")
        .ok (e, psE2)
    else
    let (mBr, psB) := pmatch1 ps .LBRACKET
    if mBr then do
      let (elements, ps2) ←
        if pcheck psB .RBRACKET then pure (([] : List Expr), psB)
        else parseArrayElems fuel psB []
      let (_, ps3) ← pconsume ps2 .RBRACKET ("Expected ] after array elements")
      .ok (.arrayE elements, ps3)
    else
    let (mBrace, psO) := pmatch1 ps .LBRACE
    if mBrace then do
      let (props, ps2) ←
        if pcheck psO .RBRACE then pure (([] : List (String × Expr)), psO)
        else parseObjProps fuel psO []
      let (_, ps3) ← pconsume ps2 .RBRACE ("Expected \x7d after object properties")
      .ok (.objectE props none, ps3)
    else
      .error ("Unexpected token: " ++ (ppeek ps).type.str ++ " at line "
        ++ toString (ppeek ps).line)
end

/-- `Parser.typeDeclaration` (after the `type` keyword was consumed). -/
def parseTypeDeclS (fuel : Nat) (ps : PState) : Except String (Stmt × PState) := do
  let (nameTok, ps1) ← pconsume ps .IDENTIFIER ("Expected type name")
  let (_, ps2) ← pconsume ps1 .EQUALS ("Expected = after type name")
  let (ann, ps3) ← parseTypeAnnF fuel ps2
  .ok (.typeDecl nameTok.value ann, ps3)

/-- The property loop of `interfaceDeclaration`. -/
def parseIfaceProps : Nat → PState → List (String × TypeAnn) →
    Except String (List (String × TypeAnn) × PState)
  | 0, _, _ => pfuelErr
  | fuel + 1, ps, acc =>
    if !pcheck ps .RBRACE && !pIsAtEnd ps then do
      let (keyTok, ps1) ← pconsume ps .IDENTIFIER ("Expected property name")
      let (_, ps2) ← pconsume ps1 .COLON ("Expected : after property name")
      let (ann, ps3) ← parseTypeAnnF fuel ps2
      let (_, ps4) := pmatch1 ps3 .COMMA
      parseIfaceProps fuel ps4 (acc ++ [(keyTok.value, ann)])
    else .ok (acc, ps)

/-- `Parser.interfaceDeclaration` (after the `interface` keyword). -/
def parseInterfaceS (fuel : Nat) (ps : PState) : Except String (Stmt × PState) := do
  let (nameTok, ps1) ← pconsume ps .IDENTIFIER ("Expected interface name")
  let (_, ps2) ← pconsume ps1 .LBRACE ("Expected \x7b after interface name")
  let (props, ps3) ← parseIfaceProps fuel ps2 []
  let (_, ps4) ← pconsume ps3 .RBRACE ("Expected \x7d after interface body")
  .ok (.interfaceDecl nameTok.value props, ps4)

/-- `Parser.variableDeclaration` (after `let`/`const`; `constant` records
which keyword was matched). -/
def parseVarDeclS (fuel : Nat) (constant : Bool) (ps : PState) :
    Except String (Stmt × PState) := do
  let (identTok, ps1) ← pconsume ps .IDENTIFIER ("Expected variable name")
  let (mColon, ps2) := pmatch1 ps1 .COLON
  let (ann, ps3) ←
    if mColon then do
      let (a, ps') ← parseTypeAnnF fuel ps2
      pure (some a, ps')
    else pure ((none : Option TypeAnn), ps2)
  let (_, ps4) ← pconsume ps3 .EQUALS ("Expected = after variable name")
  let (value, ps5) ← parseExpression fuel ps4
  .ok (.varDecl identTok.value constant ann value, ps5)

/-- `Parser.returnStatement` (after `return`). -/
def parseReturnS (fuel : Nat) (ps : PState) : Except String (Stmt × PState) := do
  if pcheck ps .RBRACE || pIsAtEnd ps then .ok (.returnStmt none, ps)
  else do
    let (e, ps1) ← parseExpression fuel ps
    .ok (.returnStmt (some e), ps1)

/-- The `do … while (match(COMMA))` typed-parameter loop of a function
declaration. -/
def parseFnParams : Nat → PState → List Param →
    Except String (List Param × PState)
  | 0, _, _ => pfuelErr
  | fuel + 1, ps, acc => do
    let (nameTok, ps1) ← pconsume ps .IDENTIFIER ("Expected parameter name")
    let (mColon, ps2) := pmatch1 ps1 .COLON
    let (ann, ps3) ←
      if mColon then do
        let (a, ps') ← parseTypeAnnF fuel ps2
        pure (some a, ps')
      else pure ((none : Option TypeAnn), ps2)
    let (m, ps4) := pmatch1 ps3 .COMMA
    if m then parseFnParams fuel ps4 (acc ++ [⟨nameTok.value, ann⟩])
    else .ok (acc ++ [⟨nameTok.value, ann⟩], ps3)

mutual
/-- `Parser.statement` -/
def parseStatement : Nat → PState → Except String (Stmt × PState)
  | 0, _ => pfuelErr
  | fuel + 1, ps =>
    let (mType, ps1) := pmatch1 ps .TYPE
    if mType then parseTypeDeclS fuel ps1
    else
    let (mIface, ps2) := pmatch1 ps .INTERFACE
    if mIface then parseInterfaceS fuel ps2
    else
    let (mVar, ps3) := pmatchList ps [.LET, .CONST]
    if mVar then parseVarDeclS fuel ((pprev ps3).type == .CONST) ps3
    else
    let (mAsync, ps4) := pmatch1 ps .ASYNC
    if mAsync then
      let (mFn, ps5) := pmatch1 ps4 .FN
      if mFn then parseFuncDeclS fuel true ps5
      else .error ("Expected \"fn\" after \"async\"")
    else
    let (mFn, ps6) := pmatch1 ps .FN
    if mFn then parseFuncDeclS fuel false ps6
    else
    let (mRet, ps7) := pmatch1 ps .RETURN
    if mRet then parseReturnS fuel ps7
    else
    let (mIf, ps8) := pmatch1 ps .IF
    if mIf then parseIfS fuel ps8
    else
    let (mFor, ps9) := pmatch1 ps .FOR
    if mFor then parseForS fuel ps9
    else do
      let (e, ps') ← parseExpression (fuel + 1) ps
      .ok (.exprStmt e, ps')

/-- The `while (!check(RBRACE) && !isAtEnd())` statement-list loop shared by
function bodies, if-branches and for-bodies. -/
def parseStmtsUntilRBrace : Nat → PState → List Stmt →
    Except String (List Stmt × PState)
  | 0, _, _ => pfuelErr
  | fuel + 1, ps, acc =>
    if !pcheck ps .RBRACE && !pIsAtEnd ps then do
      let (s, ps1) ← parseStatement fuel ps
      parseStmtsUntilRBrace fuel ps1 (acc ++ [s])
    else .ok (acc, ps)

/-- `Parser.functionDeclaration` (after `fn`; `isAsync` from a preceding
`async`). -/
def parseFuncDeclS : Nat → Bool → PState → Except String (Stmt × PState)
  | 0, _, _ => pfuelErr
  | fuel + 1, isAsync, ps => do
    let (nameTok, ps1) ← pconsume ps .IDENTIFIER ("Expected function name")
    let (_, ps2) ← pconsume ps1 .LPAREN ("Expected ( after function name")
    let (params, ps3) ←
      if pcheck ps2 .RPAREN then pure (([] : List Param), ps2)
      else parseFnParams fuel ps2 []
    let (_, ps4) ← pconsume ps3 .RPAREN ("Expected ) after parameters")
    let (mArrow, ps5) := pmatch1 ps4 .RETURN_ARROW
    let (returnAnn, ps6) ←
      if mArrow then do
        let (a, ps') ← parseTypeAnnF fuel ps5
        pure (some a, ps')
      else pure ((none : Option TypeAnn), ps5)
    let (_, ps7) ← pconsume ps6 .LBRACE ("Expected \x7b before function body")
    let (body, ps8) ← parseStmtsUntilRBrace fuel ps7 []
    let (_, ps9) ← pconsume ps8 .RBRACE ("Expected \x7d after function body")
    .ok (.funcDecl nameTok.value params returnAnn body isAsync, ps9)

/-- `Parser.ifStatement` (after `if`). -/
def parseIfS : Nat → PState → Except String (Stmt × PState)
  | 0, _ => pfuelErr
  | fuel + 1, ps => do
    let (condition, ps1) ← parseExpression fuel ps
    let (_, ps2) ← pconsume ps1 .LBRACE ("Expected \x7b after if condition")
    let (consequent, ps3) ← parseStmtsUntilRBrace fuel ps2 []
    let (_, ps4) ← pconsume ps3 .RBRACE ("Expected \x7d after if body")
    let (mElse, ps5) := pmatch1 ps4 .ELSE
    if mElse then do
      let (_, ps6) ← pconsume ps5 .LBRACE ("Expected \x7b after else")
      let (alternate, ps7) ← parseStmtsUntilRBrace fuel ps6 []
      let (_, ps8) ← pconsume ps7 .RBRACE ("Expected \x7d after else body")
      .ok (.ifStmt condition consequent (some alternate), ps8)
    else .ok (.ifStmt condition consequent none, ps4)

/-- `Parser.forStatement` (after `for`): `for await? x in iterable { … }`. -/
def parseForS : Nat → PState → Except String (Stmt × PState)
  | 0, _ => pfuelErr
  | fuel + 1, ps => do
    let (isAwait, ps1) := pmatch1 ps .AWAIT
    let (varTok, ps2) ← pconsume ps1 .IDENTIFIER ("Expected variable name in for loop")
    let (_, ps3) ← pconsume ps2 .IN ("Expected \"in\" in for loop")
    let (iterable, ps4) ← parseExpression fuel ps3
    let (_, ps5) ← pconsume ps4 .LBRACE ("Expected \x7b after for header")
    let (body, ps6) ← parseStmtsUntilRBrace fuel ps5 []
    let (_, ps7) ← pconsume ps6 .RBRACE ("Expected \x7d after for body")
    .ok (.forStmt varTok.value iterable body isAwait, ps7)
end

/-- The `while (!isAtEnd())` loop of `Parser.parse`. -/
def parseProgramLoop : Nat → PState → List Stmt → Except String (List Stmt × PState)
  | 0, _, _ => pfuelErr
  | fuel + 1, ps, acc =>
    if !pIsAtEnd ps then do
      let (s, ps1) ← parseStatement fuel ps
      parseProgramLoop fuel ps1 (acc ++ [s])
    else .ok (acc, ps)

/-- The depth budget handed to the fueled parser.  Fuel bounds recursion
depth; one descent through the precedence pipeline costs a fixed number of
calls and every re-entry first consumes a token, so a linear bound in the
token count is ample. -/
def parseFuel (tokens : List Token) : Nat := 16 * tokens.length + 200

/-- `Parser.parse` -/
def parseTokens (tokens : List Token) : Except String ProgramNode := do
  let (body, _) ← parseProgramLoop (parseFuel tokens) ⟨tokens, 0⟩ []
  .ok ⟨body⟩

-- ============================================================================
-- Code generator (src/unnamed/part_002, class CodeGenerator — the
-- scope-tracking, async-aware generator the claims designate)
-- ============================================================================

/-- One identifier-rendering decision of the generator: which name was
rendered, whether it was declared in some active scope at that moment,
whether it was rendered behind `await`, whether the current lexical context
was async, and whether it was the simple-identifier target of an
assignment.  Pure instrumentation: the emitted strings do not depend on it. -/
structure RenderEvent where
  name : String
  declared : Bool
  awaited : Bool
  inAsync : Bool
  assignTarget : Bool
deriving DecidableEq, Repr

/-- One `_type` injection performed by `generateObjectExpression`, tagged
with whether it came from the variable-declaration statement path.  Pure
instrumentation. -/
structure InjectEvent where
  typeName : String
  fromVarDecl : Bool
deriving DecidableEq, Repr

/-- The generator's mutable state: the scope stack and async-context stack
(head = innermost), plus the recorded instrumentation events. -/
structure Gen where
  scopes : List (List String)
  asyncContextStack : List Bool
  events : List RenderEvent
  injections : List InjectEvent

/-- `CodeGenerator.isDeclared` -/
def Gen.isDeclared (g : Gen) (name : String) : Bool :=
  g.scopes.any fun s => s.contains name

/-- `CodeGenerator.isInAsyncContext` -/
def Gen.isInAsyncContext (g : Gen) : Bool :=
  match g.asyncContextStack with
  | b :: _ => b
  | [] => false

/-- `this.currentScope().add(name)` -/
def Gen.scopeAdd (g : Gen) (name : String) : Gen :=
  match g.scopes with
  | s :: rest => { g with scopes := (name :: s) :: rest }
  | [] => { g with scopes := [[name]] }

/-- `this.scopes.push(new Set())` -/
def Gen.pushScope (g : Gen) : Gen := { g with scopes := [] :: g.scopes }

/-- `this.scopes.pop()` -/
def Gen.popScope (g : Gen) : Gen := { g with scopes := g.scopes.tail }

/-- `this.asyncContextStack.push(b)` -/
def Gen.pushAsync (g : Gen) (b : Bool) : Gen :=
  { g with asyncContextStack := b :: g.asyncContextStack }

/-- `this.asyncContextStack.pop()` -/
def Gen.popAsync (g : Gen) : Gen :=
  { g with asyncContextStack := g.asyncContextStack.tail }

/-- Record an identifier-rendering decision. -/
def Gen.emitEvent (g : Gen) (ev : RenderEvent) : Gen :=
  { g with events := g.events ++ [ev] }

/-- Record a `_type` injection. -/
def Gen.emitInject (g : Gen) (i : InjectEvent) : Gen :=
  { g with injections := g.injections ++ [i] }

/-- A member-chain segment's property: the `string | ASTNode` union. -/
inductive MProp where
  | ofString (s : String)
  | ofNode (e : Expr)

/-- The chain-flattening loop at the top of `generateMemberAccess`:
root expression plus the property segments in root-to-leaf order. -/
def flattenMember : Expr → Expr × List (MProp × Bool)
  | .memberS o p c =>
    let (r, ps) := flattenMember o
    (r, ps ++ [(.ofString p, c)])
  | .memberE o p c =>
    let (r, ps) := flattenMember o
    (r, ps ++ [(.ofNode p, c)])
  | e => (e, [])

/-- `[x, …, last] → some ([x, …], last)` — the `parts[parts.length - 1]` /
"chain before last" split. -/
def splitLast {α : Type} : List α → Option (List α × α)
  | [] => none
  | [x] => some ([], x)
  | x :: rest =>
    match splitLast rest with
    | some (front, last) => some (x :: front, last)
    | none => none

/-- The array-method name set of `generateMemberAccess`. -/
def genArrayMethods : List String :=
  ["find", "filter", "map", "slice", "concat", "at", "findIndex",
   "indexOf", "some", "every", "includes"]

/-- The numeric-index test of `generateMemberAccess`: a computed segment
whose property is a numeric string or a numeric literal node. -/
def isNumericIndexPart (p : MProp × Bool) : Bool :=
  p.2 && (match p.1 with
    | .ofString s => isIntegerString s
    | .ofNode (.literal (.num _)) => true
    | .ofNode _ => false)

mutual
/-- `CodeGenerator.generateStatement` (fueled; the entry points pass more
fuel than any reachable recursion depth, so the fuel-out default is inert). -/
def genStmt : Nat → Gen → Stmt → String × Gen
  | 0, g, _ => ("", g)
  | fuel + 1, g, stmt =>
    match stmt with
    | .typeDecl _ _ => ("", g)
    | .interfaceDecl _ _ => ("", g)
    | .varDecl ident constant ann value =>
      let keyword := if constant then "const" else "let"
      let g1 := g.scopeAdd ident
      match value, ann with
      | .objectE props _, some (.typeReference tname) =>
        let (obj, g2) := genObjectExpression fuel g1 props (some tname) true
        (keyword ++ " " ++ ident ++ " = " ++ obj ++ ";", g2)
      | _, _ =>
        let (vs, g2) := genExpr fuel g1 value
        (keyword ++ " " ++ ident ++ " = " ++ vs ++ ";", g2)
    | .funcDecl name params _ body isAsync =>
      let g1 := g.scopeAdd name
      let asyncKw := if isAsync then "async " else ""
      let paramsStr := joinSep (", ") (params.map Param.name)
      let g2 := (g1.pushScope.pushAsync isAsync)
      let g3 := params.foldl (fun acc p => acc.scopeAdd p.name) g2
      let (bodyLines, g4) := genStmtList fuel g3 body
      let g5 := g4.popAsync.popScope
      (asyncKw ++ "function " ++ name ++ "(" ++ paramsStr ++ ") \x7b\n"
        ++ joinSep ("\n") bodyLines ++ "\n\x7d", g5)
    | .returnStmt (some v) =>
      let (vs, g1) := genExpr fuel g v
      ("return " ++ vs ++ ";", g1)
    | .returnStmt none => ("return;", g)
    | .ifStmt cond cons alt =>
      let (cs, g1) := genExpr fuel g cond
      let (consLines, g2) := genStmtList fuel g1 cons
      let (altStr, g3) :=
        match alt with
        | some a =>
          let (altLines, g') := genStmtList fuel g2 a
          ("else \x7b\n" ++ joinSep ("\n") altLines ++ "\n\x7d", g')
        | none => ("", g2)
      ("if (" ++ cs ++ ") \x7b\n" ++ joinSep ("\n") consLines ++ "\n\x7d " ++ altStr, g3)
    | .forStmt v iter body isAsync =>
      let awaitKw := if isAsync then "await " else ""
      let (iterStr, g1) := genExpr fuel g iter
      let g2 := g1.pushScope.scopeAdd v
      let (bodyLines, g3) := genStmtList fuel g2 body
      let g4 := g3.popScope
      ("for " ++ awaitKw ++ "(const " ++ v ++ " of " ++ iterStr ++ ") \x7b\n"
        ++ joinSep ("\n") bodyLines ++ "\n\x7d", g4)
    | .exprStmt e =>
      let (es, g1) := genExpr fuel g e
      (es ++ ";", g1)

/-- `body.map(s => generateStatement(s))` with state threading. -/
def genStmtList : Nat → Gen → List Stmt → List String × Gen
  | 0, g, _ => ([], g)
  | fuel + 1, g, stmts =>
    match stmts with
    | [] => ([], g)
    | s :: rest =>
      let (line, g1) := genStmt fuel g s
      let (lines, g2) := genStmtList fuel g1 rest
      (line :: lines, g2)

/-- `CodeGenerator.generateExpression` -/
def genExpr : Nat → Gen → Expr → String × Gen
  | 0, g, _ => ("", g)
  | fuel + 1, g, e =>
    match e with
    | .literal (.str s) => ("\"" ++ s ++ "\"", g)
    | .literal v => (litToDisplay v, g)
    | .identifier name =>
      let d := g.isDeclared name
      let a := g.isInAsyncContext
      if !d && a then
        ("await " ++ name,
          g.emitEvent ⟨name, d, true, a, false⟩)
      else
        (name, g.emitEvent ⟨name, d, false, a, false⟩)
    | .binary op left right =>
      let (l, g1) := genExpr fuel g left
      let (r, g2) := genExpr fuel g1 right
      ("(" ++ l ++ " " ++ op ++ " " ++ r ++ ")", g2)
    | .unary op operand =>
      let (o, g1) := genExpr fuel g operand
      (op ++ o, g1)
    | .call callee args =>
      let (argStrs, g1) := genExprList fuel g args
      let argsStr := joinSep (", ") argStrs
      match callee with
      | .memberS _ _ _ =>
        let (ma, g2) := genMemberAccess fuel g1 callee true false
        (ma ++ "(" ++ argsStr ++ ")", g2)
      | .memberE _ _ _ =>
        let (ma, g2) := genMemberAccess fuel g1 callee true false
        (ma ++ "(" ++ argsStr ++ ")", g2)
      | .identifier name =>
        if !g1.isDeclared name && g1.isInAsyncContext then
          ("(await " ++ name ++ ")(" ++ argsStr ++ ")",
            g1.emitEvent ⟨name, false, true, true, false⟩)
        else
          let (calleeStr, g2) := genExpr fuel g1 callee
          (calleeStr ++ "(" ++ argsStr ++ ")", g2)
      | _ =>
        let (calleeStr, g2) := genExpr fuel g1 callee
        (calleeStr ++ "(" ++ argsStr ++ ")", g2)
    | .memberS _ _ _ => genMemberAccess fuel g e false false
    | .memberE _ _ _ => genMemberAccess fuel g e false false
    | .arrayE elements =>
      let (elStrs, g1) := genExprList fuel g elements
      ("[" ++ joinSep (", ") elStrs ++ "]", g1)
    | .objectE props inferredName =>
      genObjectExpression fuel g props inferredName false
    | .conditional test consequent alternate =>
      let (t, g1) := genExpr fuel g test
      let (c, g2) := genExpr fuel g1 consequent
      let (a, g3) := genExpr fuel g2 alternate
      ("(" ++ t ++ " ? " ++ c ++ " : " ++ a ++ ")", g3)
    | .arrow params body isAsync =>
      let asyncArrow := if isAsync then "async " else ""
      let fnParams := joinSep (", ") params
      let g1 := (g.pushScope.pushAsync isAsync)
      let g2 := params.foldl Gen.scopeAdd g1
      let (fnBody, g3) := genExpr fuel g2 body
      let g4 := g3.popAsync.popScope
      (asyncArrow ++ "(" ++ fnParams ++ ") => " ++ fnBody, g4)
    | .assign target value =>
      match target with
      | .identifier name =>
        let g0 := g.emitEvent ⟨name, g.isDeclared name, false, g.isInAsyncContext, true⟩
        let (vs, g1) := genExpr fuel g0 value
        (name ++ " = " ++ vs, g1)
      | .memberS _ _ _ =>
        let (lhs, g1) := genMemberAccess fuel g target false true
        let (vs, g2) := genExpr fuel g1 value
        (lhs ++ " = " ++ vs, g2)
      | .memberE _ _ _ =>
        let (lhs, g1) := genMemberAccess fuel g target false true
        let (vs, g2) := genExpr fuel g1 value
        (lhs ++ " = " ++ vs, g2)
      | _ =>
        let (ts, g1) := genExpr fuel g target
        let (vs, g2) := genExpr fuel g1 value
        (ts ++ " = " ++ vs, g2)
    | .awaitE argument =>
      let (a, g1) := genExpr fuel g argument
      ("await " ++ a, g1)

/-- Expression-list generation (call arguments, array elements). -/
def genExprList : Nat → Gen → List Expr → List String × Gen
  | 0, g, _ => ([], g)
  | fuel + 1, g, es =>
    match es with
    | [] => ([], g)
    | e :: rest =>
      let (s, g1) := genExpr fuel g e
      let (ss, g2) := genExprList fuel g1 rest
      (s :: ss, g2)

/-- `buildWithoutAwait` of `generateMemberAccess`: the root rendered with no
`await` (non-identifier roots go through `generateExpression`, wrapped). -/
def buildWithoutAwait : Nat → Gen → Expr → String × Gen
  | 0, g, _ => ("", g)
  | fuel + 1, g, root =>
    match root with
    | .identifier name => (name, g)
    | _ =>
      let (s, g1) := genExpr fuel g root
      ("(" ++ s ++ ")", g1)

/-- The segment-rendering loop of `generateMemberAccess` (computed string
segments render as literal or quoted brackets, computed node segments
recurse; non-computed segments render as `.prop` — a non-computed node
segment stringifies the node object, which the parser cannot produce). -/
def chainAppend : Nat → Gen → String → List (MProp × Bool) → String × Gen
  | 0, g, acc, _ => (acc, g)
  | fuel + 1, g, acc, parts =>
    match parts with
    | [] => (acc, g)
    | (prop, computed) :: rest =>
      if computed then
        match prop with
        | .ofString s =>
          if isIntegerString s then chainAppend fuel g (acc ++ "[" ++ s ++ "]") rest
          else chainAppend fuel g (acc ++ "[" ++ jsonQuote s ++ "]") rest
        | .ofNode e =>
          let (s, g1) := genExpr fuel g e
          chainAppend fuel g1 (acc ++ "[" ++ s ++ "]") rest
      else
        match prop with
        | .ofString s => chainAppend fuel g (acc ++ "." ++ s) rest
        | .ofNode _ => chainAppend fuel g (acc ++ "." ++ "[object Object]") rest

/-- `CodeGenerator.generateMemberAccess(node, isCall, forAssignment)`,
translated path for path: the full chain is built first; a recognized
trailing array method on a call awaits the chain before the method; a
trailing numeric index (outside assignment) awaits the chain before the
index; assignment targets await only an undeclared root; the default read
awaits only an undeclared root in async context. -/
def genMemberAccess : Nat → Gen → Expr → Bool → Bool → String × Gen
  | 0, g, _, _, _ => ("", g)
  | fuel + 1, g, node, isCall, forAssignment =>
    let (root, parts) := flattenMember node
    let (rootStr, g1) := buildWithoutAwait fuel g root
    let (chain, g2) := chainAppend fuel g1 rootStr parts
    let methodSplit : Option (List (MProp × Bool) × String) :=
      if isCall then
        match splitLast parts with
        | some (front, (MProp.ofString s, false)) =>
          if genArrayMethods.contains s then some (front, s) else none
        | _ => none
      else none
    match methodSplit with
    | some (front, method) =>
      let (beforeRoot, g3) := buildWithoutAwait fuel g2 root
      let (before, g4) := chainAppend fuel g3 beforeRoot front
      let methodAccess := "." ++ method
      (match root with
       | .identifier n =>
         if g4.isInAsyncContext && !g4.isDeclared n then
           ("(await " ++ before ++ ")" ++ methodAccess,
             g4.emitEvent ⟨n, false, true, true, false⟩)
         else
           (before ++ methodAccess,
             g4.emitEvent ⟨n, g4.isDeclared n, false, g4.isInAsyncContext, false⟩)
       | _ => (before ++ methodAccess, g4))
    | none =>
      let idxSplit : Option (List (MProp × Bool) × (MProp × Bool)) :=
        if !forAssignment then
          match splitLast parts with
          | some (front, last) =>
            if isNumericIndexPart last then some (front, last) else none
          | none => none
        else none
      match idxSplit with
      | some (front, last) =>
        let (beforeRoot, g3) := buildWithoutAwait fuel g2 root
        let (before, g4) := chainAppend fuel g3 beforeRoot front
        let (indexExpr, g5) :=
          match last.1 with
          | .ofString s => (s, g4)
          | .ofNode e => genExpr fuel g4 e
        (match root with
         | .identifier n =>
           if g5.isInAsyncContext && !g5.isDeclared n then
             ("(await " ++ before ++ ")[" ++ indexExpr ++ "]",
               g5.emitEvent ⟨n, false, true, true, false⟩)
           else
             (before ++ "[" ++ indexExpr ++ "]",
               g5.emitEvent ⟨n, g5.isDeclared n, false, g5.isInAsyncContext, false⟩)
         | _ => (before ++ "[" ++ indexExpr ++ "]", g5))
      | none =>
        if forAssignment then
          match root with
          | .identifier name =>
            let rest := chain.drop name.length
            if !g2.isDeclared name && g2.isInAsyncContext then
              ("(await " ++ name ++ ")" ++ rest,
                g2.emitEvent ⟨name, false, true, true, false⟩)
            else
              (name ++ rest,
                g2.emitEvent ⟨name, g2.isDeclared name, false, g2.isInAsyncContext, false⟩)
          | _ =>
            let (baseInner, g3) := genExpr fuel g2 root
            let base := "(" ++ baseInner ++ ")"
            let (rootStr2, g4) := buildWithoutAwait fuel g3 root
            (base ++ chain.drop rootStr2.length, g4)
        else
          match root with
          | .identifier name =>
            let rest := chain.drop name.length
            if !g2.isDeclared name && g2.isInAsyncContext then
              ("(await " ++ name ++ ")" ++ rest,
                g2.emitEvent ⟨name, false, true, true, false⟩)
            else
              (name ++ rest,
                g2.emitEvent ⟨name, g2.isDeclared name, false, g2.isInAsyncContext, false⟩)
          | _ =>
            let (baseInner, g3) := genExpr fuel g2 root
            let base := "(" ++ baseInner ++ ")"
            let (rootStr2, g4) := buildWithoutAwait fuel g3 root
            (base ++ chain.drop rootStr2.length, g4)

/-- The property parts of `generateObjectExpression`. -/
def genObjectProps : Nat → Gen → List (String × Expr) → List String × Gen
  | 0, g, _ => ([], g)
  | fuel + 1, g, props =>
    match props with
    | [] => ([], g)
    | (k, v) :: rest =>
      let (vs, g1) := genExpr fuel g v
      let (ss, g2) := genObjectProps fuel g1 rest
      ((k ++ ": " ++ vs) :: ss, g2)

/-- `CodeGenerator.generateObjectExpression(node, typeName)`: inject a
leading `_type` field when a type name is supplied and the literal does not
already declare `_type`.  `fromVarDecl` is instrumentation marking the
variable-declaration call site; the emitted string ignores it. -/
def genObjectExpression : Nat → Gen → List (String × Expr) → Option String →
    Bool → String × Gen
  | 0, g, _, _, _ => ("", g)
  | fuel + 1, g, props, typeName, fromVarDecl =>
    let hasExplicitTypeProp := props.any fun p => p.1 == "_type"
    let (lead, g1) :=
      match typeName with
      | some n =>
        if !hasExplicitTypeProp then
          ([("_type: " ++ jsonQuote n)], g.emitInject ⟨n, fromVarDecl⟩)
        else ([], g)
      | none => ([], g)
    let (propParts, g2) := genObjectProps fuel g1 props
    ("\x7b " ++ joinSep (", ") (lead ++ propParts) ++ " \x7d", g2)
end

mutual
/-- Node count of an expression (for the generator's fuel bound). -/
def exprSize : Expr → Nat
  | .literal _ => 1
  | .identifier _ => 1
  | .binary _ l r => 1 + exprSize l + exprSize r
  | .unary _ o => 1 + exprSize o
  | .call c args => 1 + exprSize c + exprListSize args
  | .memberS o _ _ => 1 + exprSize o
  | .memberE o p _ => 1 + exprSize o + exprSize p
  | .arrayE es => 1 + exprListSize es
  | .objectE props _ => 1 + propListSize props
  | .conditional t c a => 1 + exprSize t + exprSize c + exprSize a
  | .arrow _ b _ => 1 + exprSize b
  | .assign t v => 1 + exprSize t + exprSize v
  | .awaitE a => 1 + exprSize a

/-- Node count of an expression list. -/
def exprListSize : List Expr → Nat
  | [] => 0
  | e :: rest => exprSize e + exprListSize rest

/-- Node count of an object-literal property list. -/
def propListSize : List (String × Expr) → Nat
  | [] => 0
  | (_, v) :: rest => exprSize v + propListSize rest
end

mutual
/-- Node count of a statement (for the generator's fuel bound). -/
def stmtSize : Stmt → Nat
  | .typeDecl _ _ => 1
  | .interfaceDecl _ _ => 1
  | .varDecl _ _ _ v => 1 + exprSize v
  | .funcDecl _ _ _ body _ => 1 + stmtListSize body
  | .returnStmt (some v) => 1 + exprSize v
  | .returnStmt none => 1
  | .ifStmt c cons alt =>
    1 + exprSize c + stmtListSize cons +
      (match alt with
       | some a => stmtListSize a
       | none => 0)
  | .forStmt _ iter body _ => 1 + exprSize iter + stmtListSize body
  | .exprStmt e => 1 + exprSize e

/-- Node count of a statement list. -/
def stmtListSize : List Stmt → Nat
  | [] => 0
  | s :: rest => stmtSize s + stmtListSize rest
end

/-- The fuel handed to the fueled generator.  Fuel bounds the recursion
depth (sibling calls receive the same fuel), and every generator call chain
descends into a strictly smaller subtree after a bounded number of calls,
so a linear bound in the node count is ample. -/
def genFuel (ast : ProgramNode) : Nat := 8 * stmtListSize ast.body + 64

/-- `CodeGenerator.generate` with the instrumented state visible: fresh
scopes (`[new Set()]`), async top level, emitted statements filtered of
empty lines and joined with newlines. -/
def generateAux (fuel : Nat) (ast : ProgramNode) : String × Gen :=
  let g0 : Gen := { scopes := [[]], asyncContextStack := [true],
                    events := [], injections := [] }
  let (lines, g) := genStmtList fuel g0 ast.body
  (joinSep ("\n") (lines.filter fun line => line != ""), g)

/-- `CodeGenerator.generate` (string result). -/
def generate (ast : ProgramNode) : String := (generateAux (genFuel ast) ast).1

-- ============================================================================
-- Compiler facade (src/src/compiler/index.ts, class VerseScriptCompiler)
-- ============================================================================

/-- `CompileResult` -/
structure CompileResult where
  success : Bool
  returnType : Option String
  code : Option String
  error : Option String
deriving DecidableEq, Repr

/-- `VerseScriptCompiler.compile`: lex, parse, `inferReturnType` (stringified),
generate, package.  The compiler instance owns one `TypeChecker`, whose
state persists across calls and is returned alongside the result; lexer,
parser and generator are constructed fresh inside the call.  When a stage
throws, the facade catches and reports `{success: false, error}` (the
embedding returns the entry state then; no claim depends on the state after
a failed call). -/
def compile (checker : TypeChecker) (source : String) :
    CompileResult × TypeChecker :=
  let run : Except String (CompileResult × TypeChecker) := do
    let tokens ← tokenize source
    let ast ← parseTokens tokens
    let (returnType, checker') ← checker.inferReturnType ast
    let returnTypeStr := typeToString returnType
    let code := generate ast
    .ok ({ success := true, returnType := some returnTypeStr,
           code := some code, error := none }, checker')
  match run with
  | .ok r => r
  | .error e =>
    ({ success := false, returnType := none, code := none, error := some e },
      checker)

/-- `VerseScriptCompiler.createObjectType` -/
def createObjectType (name : String) (properties : List (String × Ty)) : Ty :=
  .object (some name) properties

/-- `VerseScriptCompiler.createArrayType` -/
def createArrayType (elementType : Ty) : Ty :=
  .array elementType

-- ============================================================================
-- Claim verification
-- ============================================================================

/-- A compiler state with `xs` bound to `Array<number>` and nothing else
(used by several concrete programs below). -/
def stXS : TypeChecker := TypeChecker.make [("xs", Ty.array tyNumber)]

/-- `for s in xs { return s }` -/
def progForReturn : ProgramNode :=
  ⟨[.forStmt ("s") (.identifier ("xs"))
      [.returnStmt (some (.identifier ("s")))] false]⟩

/-- C9: Because `inferReturnType` re-infers collected return expressions only
after `check` has completed, and `checkForStatement` restores the symbol
table on exit, a `return s` inside `for s in xs { … }` (with `xs :
Array<number>` in context and `s` not a registered custom-type name) is
re-inferred with `s` unbound, so the reported program return type is
Unknown rather than the element type. -/
theorem C9_for_loop_return_unknown :
    (stXS.inferReturnType progForReturn).map Prod.fst = .ok Ty.unknown
      ∧ Ty.unknown ≠ tyNumber := by
  exact ⟨rfl, by simp [tyNumber]⟩

/-- The named object type `Spell` with a single property. -/
def spellNamedTy : Ty := .object (some ("Spell")) [("name", tyString)]

/-- A checker state binding `a` and `b` to the named object type `Spell`. -/
def stAB : TypeChecker := TypeChecker.make [("a", spellNamedTy), ("b", spellNamedTy)]

/-- `true ? a : b` with both arms of type `Spell`. -/
def condAB : Expr :=
  .conditional (.literal (.bool true)) (.identifier ("a")) (.identifier ("b"))

/-- C5 counterexample: the claim says `typesEqual` compares named object
types nominally by name, so a conditional whose arms share a named object
type would get that type; in fact `typesEqual` returns false for every
object type — even two references to the same interned `Spell` — and the
conditional yields the two-member union. -/
theorem C5_counterexample :
    typesEqual spellNamedTy spellNamedTy = false
      ∧ inferExpression stAB condAB = .ok (.union [spellNamedTy, spellNamedTy], stAB)
      ∧ Ty.union [spellNamedTy, spellNamedTy] ≠ spellNamedTy := by
  refine ⟨by simp [spellNamedTy, typesEqual], rfl, by simp [spellNamedTy]⟩

/-- C5 amended: type equality compares primitives by name and arrays and
promises by recursive equality of the inner type; every other kind —
including two named object types with the same name — is never equal, and
a conditional whose two arms infer to types `t1`, `t2` yields `t1` when
`typesEqual t1 t2` and otherwise the two-member union `[t1, t2]` (so
same-named object arms produce a union of the type with itself). -/
theorem C5_typesEqual_nominal_never :
    (∀ (name : Option String) (props : List (String × Ty)),
      typesEqual (.object name props) (.object name props) = false)
    ∧ (∀ (st st1 st2 : TypeChecker) (t e1 e2 : Expr) (t1 t2 : Ty),
        inferExpression st e1 = .ok (t1, st1) →
        inferExpression st1 e2 = .ok (t2, st2) →
        inferExpression st (.conditional t e1 e2)
          = .ok (if typesEqual t1 t2 then t1 else .union [t1, t2], st2)) := by
  constructor
  · intro name props; simp [typesEqual]
  · intro st st1 st2 t e1 e2 t1 t2 h1 h2
    simp only [inferExpression, h1, h2, Bind.bind, Except.bind]
    split <;> rename_i hEq
    · simp [hEq]
    · simp [hEq]

/-- Witness for `C5_typesEqual_nominal_never`: the concrete conditional
`true ? a : b` with both arms the named `Spell` type yields the union. -/
theorem C5_typesEqual_nominal_never_witness :
    inferExpression stAB condAB
      = .ok (if typesEqual spellNamedTy spellNamedTy then spellNamedTy
             else .union [spellNamedTy, spellNamedTy], stAB) :=
  C5_typesEqual_nominal_never.2 stAB stAB stAB
    (.literal (.bool true)) (.identifier ("a")) (.identifier ("b"))
    spellNamedTy spellNamedTy rfl rfl

/-- `for await x in xs { }` with `xs : Array<number>` in scope. -/
def forAwaitOverArray : Stmt := .forStmt ("x") (.identifier ("xs")) [] true

/-- C3 counterexample: the claim says a `for await` whose iterable is not a
`Promise<T[]>` fails with the for-await error; but when the iterable is a
plain `Array<E>` the array branch runs first, so checking succeeds (binding
the element type) and no error is raised. -/
theorem C3_counterexample :
    checkStatement stXS forAwaitOverArray = .ok (Ty.unknown, stXS) := rfl

/-- C3 amended: in `checkForStatement` with the await flag set, a
`Promise<Array<E>>` iterable requires an async context (failing with the
await-outside-async message, not the for-await message) and yields `E`; a
plain `Array<E>` iterable is accepted without any error, yielding `E`; only
an iterable that is neither a promise-of-array nor an array fails with
"for await...of requires an async iterable (Promise<T[]>)". -/
theorem C3_for_await_cases (st st' : TypeChecker) (v : String) (e : Expr) (it : Ty)
    (hInfer : inferExpression st e = .ok (it, st')) :
    (∀ E, it = .promise (.array E) → st'.currentFunctionIsAsync = true →
      checkStatement st (.forStmt v e [] true)
        = .ok (.unknown, { st' with symbolTable := st.symbolTable }))
    ∧ (∀ E, it = .promise (.array E) → st'.currentFunctionIsAsync = false →
      checkStatement st (.forStmt v e [] true)
        = .error ("await can only be used in async functions"))
    ∧ (∀ E, it = .array E →
      checkStatement st (.forStmt v e [] true)
        = .ok (.unknown, { st' with symbolTable := st.symbolTable }))
    ∧ (promiseArrayElem it = none → arrayElem it = none →
      checkStatement st (.forStmt v e [] true)
        = .error ("for await...of requires an async iterable (Promise<T[]>)")) := by
  refine ⟨?_, ?_, ?_, ?_⟩
  · intro E hIt hAsync
    subst hIt
    simp [checkStatement, hInfer, Bind.bind, Except.bind, promiseArrayElem, hAsync,
      checkSeq]
  · intro E hIt hAsync
    subst hIt
    simp [checkStatement, hInfer, Bind.bind, Except.bind, promiseArrayElem, hAsync]
  · intro E hIt
    subst hIt
    simp [checkStatement, hInfer, Bind.bind, Except.bind, promiseArrayElem, arrayElem,
      checkSeq]
  · intro hP hA
    simp [checkStatement, hInfer, Bind.bind, Except.bind, hP, hA]

/-- Witness for `C3_for_await_cases`: `for await x in xs { }` over a plain
`Array<number>` checks successfully, against the claim's error. -/
theorem C3_for_await_cases_witness :
    checkStatement stXS (.forStmt ("x") (.identifier ("xs")) [] true)
      = .ok (.unknown, { stXS with symbolTable := stXS.symbolTable }) :=
  (C3_for_await_cases stXS stXS ("x") (.identifier ("xs")) (Ty.array tyNumber)
    rfl).2.2.1 tyNumber rfl

/-- C1 counterexample: `compile` is not a pure function of the source and
the registered state.  After a prior `compile ("const x = 5")` on the same
instance, `compile ("return x")` reports return type `number`; a freshly
constructed compiler with the same (empty) constructor context and no
registrations reports `unknown` for the same source, and the two results
differ — the checker's symbol table leaks across compile calls. -/
theorem C1_counterexample :
    (compile (compile (TypeChecker.make []) ("const x = 5")).2 ("return x")).1.returnType
        = some ("number")
    ∧ (compile (TypeChecker.make []) ("return x")).1.returnType = some ("unknown")
    ∧ (compile (compile (TypeChecker.make []) ("const x = 5")).2 ("return x")).1
        ≠ (compile (TypeChecker.make []) ("return x")).1 := by
  refine ⟨by decide, by decide, by decide⟩

/-- The checker state after a sequence of compile calls on one instance. -/
def runHistory (st : TypeChecker) (sources : List String) : TypeChecker :=
  sources.foldl (fun s src => (compile s src).2) st

/-- C1 amended: the result of `compile` is determined by the checker state
at call time.  A later `compile source` agrees with a freshly constructed
compiler with the same constructor context and registrations exactly when
the prior compile calls left the checker state (symbol table, custom-type
registry, flags) unchanged; in general prior compiles mutate that state. -/
theorem C1_pure_in_checker_state (st : TypeChecker) (hist : List String)
    (source : String) (hPreserved : runHistory st hist = st) :
    compile (runHistory st hist) source = compile st source := by
  rw [hPreserved]

/-- Witness for `C1_pure_in_checker_state`: a prior `compile ("return 1")`
leaves the fresh checker state unchanged, so a later `compile ("return 2")`
matches the fresh compiler's result. -/
theorem C1_pure_in_checker_state_witness :
    compile (runHistory (TypeChecker.make []) [("return 1")]) ("return 2")
      = compile (TypeChecker.make []) ("return 2") :=
  C1_pure_in_checker_state (TypeChecker.make []) [("return 1")] ("return 2") rfl

mutual
/-- Anything is assignable to `unknown`: a union source fans out into
members that hit the unknown-target test, every other source hits it
directly (`typesEqual` never matches an unknown target). -/
theorem isAssignable_to_unknown : ∀ (V : Ty), isAssignable V Ty.unknown = true
  | .union ss => by
    have h := allAssignableTo_unknown ss
    simp [isAssignable, isUnionKind, unionMembers, h]
  | .primitive n => by
    simp [isAssignable, isUnionKind, isAssignableRest, typesEqual, isUnknownKind]
  | .array e => by
    simp [isAssignable, isUnionKind, isAssignableRest, typesEqual, isUnknownKind]
  | .object n props => by
    simp [isAssignable, isUnionKind, isAssignableRest, typesEqual, isUnknownKind]
  | .func p r a => by
    simp [isAssignable, isUnionKind, isAssignableRest, typesEqual, isUnknownKind]
  | .promise r => by
    simp [isAssignable, isUnionKind, isAssignableRest, typesEqual, isUnknownKind]
  | .unknown => by
    simp [isAssignable, isUnionKind, isAssignableRest, typesEqual, isUnknownKind]

/-- List version of `isAssignable_to_unknown` for union members. -/
theorem allAssignableTo_unknown : ∀ (l : List Ty), allAssignableTo l Ty.unknown = true
  | [] => by simp [allAssignableTo]
  | s :: rest => by
    have h1 := isAssignable_to_unknown s
    have h2 := allAssignableTo_unknown rest
    simp [allAssignableTo, h1, h2]
end

/-- C10: resolving a type annotation that references a name absent from the
custom-type registry never raises an error — `annotationToType` returns
Unknown — and a variable declaration annotated with such a reference
type-checks for every value expression (everything is assignable to
Unknown) and binds the variable to Unknown. -/
theorem C10_unregistered_reference (st : TypeChecker) (name : String)
    (hMiss : jsGet st.customTypes name = none) :
    annotationToType st.customTypes (.typeReference name) = Ty.unknown
    ∧ ∀ (x : String) (c : Bool) (e : Expr) (V : Ty) (st' : TypeChecker),
        inferExpression st e = .ok (V, st') →
        jsGet st'.customTypes name = none →
        checkStatement st (.varDecl x c (some (.typeReference name)) e)
          = .ok (Ty.unknown,
              { st' with symbolTable := jsSet st'.symbolTable x Ty.unknown }) := by
  constructor
  · simp [annotationToType, hMiss]
  · intro x c e V st' hInfer hMiss'
    simp [checkStatement, hInfer, Bind.bind, Except.bind, annotationToType, hMiss',
      isAssignable_to_unknown V]

/-- Witness for `C10_unregistered_reference`: `const x: Bogus = 5` with no
registered `Bogus` binds `x` to Unknown and succeeds. -/
theorem C10_unregistered_reference_witness :
    checkStatement (TypeChecker.make []) (.varDecl ("x") true
        (some (.typeReference ("Bogus"))) (.literal (.num ("5"))))
      = .ok (Ty.unknown,
          { TypeChecker.make [] with
              symbolTable := jsSet (TypeChecker.make []).symbolTable ("x") Ty.unknown }) :=
  (C10_unregistered_reference (TypeChecker.make []) ("Bogus") rfl).2
    ("x") true (.literal (.num ("5"))) tyNumber (TypeChecker.make []) rfl rfl

/-- `true` when no binding in the list uses the key `k`. -/
def keyNotIn (k : String) : List (String × Ty) → Bool
  | [] => true
  | (k2, _) :: rest => (k2 != k) && keyNotIn k rest

mutual
/-- A semantic type built without the `function` kind and whose object
property lists bind each key at most once — the shapes `annotationToType`,
inference and `createObjectType`/`createArrayType` actually produce, since
JS `Map`s and object literals cannot carry duplicate keys. -/
def reflSafe : Ty → Bool
  | .primitive _ => true
  | .array e => reflSafe e
  | .object _ props => reflSafeProps props
  | .func _ _ _ => false
  | .union ts => reflSafeList ts
  | .promise r => reflSafe r
  | .unknown => true

/-- `reflSafe` over the members of a union. -/
def reflSafeList : List Ty → Bool
  | [] => true
  | t :: rest => reflSafe t && reflSafeList rest

/-- `reflSafe` over object properties, with pairwise-distinct keys. -/
def reflSafeProps : List (String × Ty) → Bool
  | [] => true
  | (k, t) :: rest => keyNotIn k rest && reflSafe t && reflSafeProps rest
end

theorem keyNotIn_ne : ∀ (k : String) (props : List (String × Ty)),
    keyNotIn k props = true → ∀ p ∈ props, p.1 ≠ k
  | k, [], _, p, hp => by cases hp
  | k, (k2, t2) :: rest, h, p, hp => by
    simp only [keyNotIn, Bool.and_eq_true, bne_iff_ne] at h
    cases hp with
    | head => exact h.1
    | tail _ hp2 => exact keyNotIn_ne k rest h.2 p hp2

theorem reflSafeProps_mem : ∀ (props : List (String × Ty)),
    reflSafeProps props = true → ∀ p ∈ props, reflSafe p.2 = true
  | [], _, p, hp => by cases hp
  | (k, t) :: rest, h, p, hp => by
    simp only [reflSafeProps, Bool.and_eq_true] at h
    cases hp with
    | head => exact h.1.2
    | tail _ hp2 => exact reflSafeProps_mem rest h.2 p hp2

theorem jsGet_self_of_reflSafeProps : ∀ (props : List (String × Ty)),
    reflSafeProps props = true → ∀ p ∈ props, jsGet props p.1 = some p.2
  | [], _, p, hp => by cases hp
  | (k, t) :: rest, h, p, hp => by
    simp only [reflSafeProps, Bool.and_eq_true] at h
    cases hp with
    | head => simp [jsGet]
    | tail _ hp2 =>
      have hne : p.1 ≠ k := keyNotIn_ne k rest h.1.1 p hp2
      have hrec := jsGet_self_of_reflSafeProps rest h.2 p hp2
      have hne2 : (k == p.1) = false := by
        simp only [beq_eq_false_iff_ne, ne_eq]
        exact fun h2 => hne h2.symm
      simp [jsGet, hne2, hrec]

theorem reflSafeList_mem : ∀ (ts : List Ty),
    reflSafeList ts = true → ∀ t ∈ ts, reflSafe t = true
  | [], _, t, ht => by cases ht
  | s :: rest, h, t, ht => by
    simp only [reflSafeList, Bool.and_eq_true] at h
    cases ht with
    | head => exact h.1
    | tail _ ht2 => exact reflSafeList_mem rest h.2 t ht2

theorem allAssignableTo_forall_mem : ∀ (l : List Ty) (t : Ty),
    allAssignableTo l t = true → ∀ x ∈ l, isAssignable x t = true
  | [], t, _, x, hx => by cases hx
  | s :: rest, t, h, x, hx => by
    simp only [allAssignableTo, Bool.and_eq_true] at h
    cases hx with
    | head => exact h.1
    | tail _ hx2 => exact allAssignableTo_forall_mem rest t h.2 x hx2

theorem allAssignableTo_of_forall : ∀ (l : List Ty) (t : Ty),
    (∀ x ∈ l, isAssignable x t = true) → allAssignableTo l t = true
  | [], t, _ => by simp [allAssignableTo]
  | s :: rest, t, h => by
    have h1 := h s (by simp)
    have h2 := allAssignableTo_of_forall rest t (fun x hx => h x (by simp [hx]))
    simp [allAssignableTo, h1, h2]

theorem anyAssignableFrom_of_mem : ∀ (s : Ty) (ts : List Ty) (u : Ty),
    u ∈ ts → isAssignable s u = true → anyAssignableFrom s ts = true
  | s, [], u, hu, _ => by cases hu
  | s, t :: rest, u, hu, h => by
    cases hu with
    | head => simp [anyAssignableFrom, h]
    | tail _ hu2 =>
      simp [anyAssignableFrom, anyAssignableFrom_of_mem s rest u hu2 h]

theorem propsAssignable_of_forall (sprops : List (String × Ty)) :
    ∀ (tl : List (String × Ty)),
      (∀ p ∈ tl, jsGet sprops p.1 = some p.2 ∧ isAssignable p.2 p.2 = true) →
      propsAssignable sprops tl = true
  | [], _ => by simp [propsAssignable]
  | (k, t) :: rest, h => by
    have h1 := h (k, t) (by simp)
    have ih := propsAssignable_of_forall sprops rest
      (fun p hp => h p (by simp [hp]))
    simp only [propsAssignable]
    split
    · rename_i heq
      simp [h1.1] at heq
    · rename_i sp heq
      rw [h1.1] at heq
      injection heq with h2
      subst h2
      simp [h1.2, ih]

/-- A type assignable to some alternative of a union is assignable to the
union itself; a union source re-fans its members over the same witness. -/
theorem union_absorb_aux : ∀ (n : Nat) (m : Ty), sizeOf m ≤ n →
    ∀ (ts : List Ty) (u : Ty), u ∈ ts → isAssignable m u = true →
      isAssignable m (Ty.union ts) = true := by
  intro n
  induction n using Nat.strong_induction_on with
  | _ n ih =>
    intro m hsz ts u hu hmu
    cases m with
    | union mms =>
      have hall : allAssignableTo mms u = true := by
        simpa [isAssignable, isUnionKind, unionMembers] using hmu
      simp only [isAssignable, isUnionKind, unionMembers, dite_true]
      apply allAssignableTo_of_forall
      intro x hx
      have hx_sz : sizeOf x < n := by
        have h1 := List.sizeOf_lt_of_mem hx
        have h2 : sizeOf (Ty.union mms) = 1 + sizeOf mms := by simp
        omega
      exact ih (sizeOf x) hx_sz x le_rfl ts u hu
        (allAssignableTo_forall_mem mms u hall x hx)
    | primitive p2 =>
      have hAny := anyAssignableFrom_of_mem (Ty.primitive p2) ts u hu hmu
      simp [isAssignable, isUnionKind, isAssignableRest, typesEqual,
        isUnknownKind, unionMembers, hAny]
    | array e =>
      have hAny := anyAssignableFrom_of_mem (Ty.array e) ts u hu hmu
      simp [isAssignable, isUnionKind, isAssignableRest, typesEqual,
        isUnknownKind, unionMembers, hAny]
    | object nm props =>
      have hAny := anyAssignableFrom_of_mem (Ty.object nm props) ts u hu hmu
      simp [isAssignable, isUnionKind, isAssignableRest, typesEqual,
        isUnknownKind, unionMembers, hAny]
    | func ps r a =>
      have hAny := anyAssignableFrom_of_mem (Ty.func ps r a) ts u hu hmu
      simp [isAssignable, isUnionKind, isAssignableRest, typesEqual,
        isUnknownKind, unionMembers, hAny]
    | promise r =>
      have hAny := anyAssignableFrom_of_mem (Ty.promise r) ts u hu hmu
      simp [isAssignable, isUnionKind, isAssignableRest, typesEqual,
        isUnknownKind, unionMembers, hAny]
    | unknown =>
      simp [isAssignable, isUnionKind, isAssignableRest, typesEqual,
        isUnknownKind, unionMembers]

theorem union_absorb {m u : Ty} {ts : List Ty} (hu : u ∈ ts)
    (h : isAssignable m u = true) : isAssignable m (Ty.union ts) = true :=
  union_absorb_aux (sizeOf m) m le_rfl ts u hu h

theorem sizeOf_snd_lt_of_mem {p : String × Ty} {props : List (String × Ty)}
    (h : p ∈ props) : sizeOf p.2 < sizeOf props := by
  have h1 := List.sizeOf_lt_of_mem h
  cases p with
  | mk a b => simp at h1 ⊢; omega

theorem isAssignable_refl_aux : ∀ (n : Nat) (s : Ty), sizeOf s ≤ n →
    reflSafe s = true → isAssignable s s = true := by
  intro n
  induction n using Nat.strong_induction_on with
  | _ n ih =>
    intro s hsz hsafe
    cases s with
    | primitive p =>
      simp [isAssignable, isUnionKind, isAssignableRest, typesEqual]
    | unknown =>
      simp [isAssignable, isUnionKind, isAssignableRest, typesEqual,
        isUnknownKind]
    | func ps r a => simp [reflSafe] at hsafe
    | array e =>
      have he : sizeOf e < n := by
        have : sizeOf (Ty.array e) = 1 + sizeOf e := by simp
        omega
      have ihe := ih (sizeOf e) he e le_rfl (by simpa [reflSafe] using hsafe)
      simp [isAssignable, isUnionKind, isAssignableRest, typesEqual,
        isUnknownKind, ihe]
    | promise r =>
      have hr : sizeOf r < n := by
        have : sizeOf (Ty.promise r) = 1 + sizeOf r := by simp
        omega
      have ihr := ih (sizeOf r) hr r le_rfl (by simpa [reflSafe] using hsafe)
      simp [isAssignable, isUnionKind, isAssignableRest, typesEqual,
        isUnknownKind, ihr]
    | object nm props =>
      have hsafe2 : reflSafeProps props = true := by
        simpa [reflSafe] using hsafe
      have hpsz : sizeOf props < sizeOf (Ty.object nm props) := by
        simp
      have hprops : propsAssignable props props = true :=
        propsAssignable_of_forall props props (fun p hp =>
          ⟨jsGet_self_of_reflSafeProps props hsafe2 p hp,
           ih (sizeOf p.2)
             (by have := sizeOf_snd_lt_of_mem hp; omega)
             p.2 le_rfl (reflSafeProps_mem props hsafe2 p hp)⟩)
      simp [isAssignable, isUnionKind, isAssignableRest, typesEqual,
        isUnknownKind, hprops]
    | union ms =>
      have hsafe2 : reflSafeList ms = true := by
        simpa [reflSafe] using hsafe
      simp only [isAssignable, isUnionKind, unionMembers, dite_true]
      apply allAssignableTo_of_forall
      intro m hm
      have hm_sz : sizeOf m < n := by
        have h1 := List.sizeOf_lt_of_mem hm
        have h2 : sizeOf (Ty.union ms) = 1 + sizeOf ms := by simp
        omega
      have hmm := ih (sizeOf m) hm_sz m le_rfl (reflSafeList_mem ms hsafe2 m hm)
      exact union_absorb hm hmm

/-- C2 counterexample: `isAssignable` is not reflexive at function types —
`typesEqual` has no function case and the final kind match of `isAssignable`
has no function arm, so a function type is not assignable to itself. -/
theorem C2_counterexample :
    isAssignable (Ty.func [] tyNumber false) (Ty.func [] tyNumber false)
      = false := by
  simp [isAssignable, isUnionKind, isAssignableRest, typesEqual, isUnknownKind]

/-- C2 (amended): assignability is reflexive on every semantic type that
contains no `function` kind and whose object property lists bind each key at
most once (all types the checker constructs from annotations, inference and
the object/array factories satisfy this); function types are not assignable
to themselves. -/
theorem C2_isAssignable_refl (T : Ty) (h : reflSafe T = true) :
    isAssignable T T = true :=
  isAssignable_refl_aux (sizeOf T) T le_rfl h

/-- Witness for `C2_isAssignable_refl` at a union of a primitive, a named
object type and a nested union. -/
theorem C2_isAssignable_refl_witness :
    reflSafe (Ty.union [tyNumber,
        Ty.object (some ("Spell")) [(("level"), tyNumber), (("tags"), Ty.array tyString)],
        Ty.union [tyBoolean, Ty.unknown]]) = true
    ∧ isAssignable
        (Ty.union [tyNumber,
          Ty.object (some ("Spell")) [(("level"), tyNumber), (("tags"), Ty.array tyString)],
          Ty.union [tyBoolean, Ty.unknown]])
        (Ty.union [tyNumber,
          Ty.object (some ("Spell")) [(("level"), tyNumber), (("tags"), Ty.array tyString)],
          Ty.union [tyBoolean, Ty.unknown]]) = true :=
  ⟨by decide,
   C2_isAssignable_refl
     (Ty.union [tyNumber,
       Ty.object (some ("Spell")) [(("level"), tyNumber), (("tags"), Ty.array tyString)],
       Ty.union [tyBoolean, Ty.unknown]])
     (by decide)⟩

/-- The per-event scope-discipline invariant: an identifier rendered without
`await` is declared in some active scope, or sits in a non-async context, or
is the simple-identifier target of an assignment. -/
def evOK (ev : RenderEvent) : Bool :=
  ev.awaited || ev.declared || !ev.inAsync || ev.assignTarget

/-- All recorded rendering events satisfy `evOK`. -/
def evsOK (g : Gen) : Bool := g.events.all evOK

theorem evsOK_scopeAdd (g : Gen) (n : String) :
    evsOK (Gen.scopeAdd g n) = evsOK g := by
  cases hs : g.scopes <;> simp [Gen.scopeAdd, hs, evsOK]

theorem evsOK_scopeAdd_of {g : Gen} (n : String) (h : evsOK g = true) :
    evsOK (Gen.scopeAdd g n) = true := by rw [evsOK_scopeAdd]; exact h

theorem evsOK_pushScope_of {g : Gen} (h : evsOK g = true) :
    evsOK g.pushScope = true := h

theorem evsOK_pushAsync_of {g : Gen} (b : Bool) (h : evsOK g = true) :
    evsOK (g.pushAsync b) = true := h

theorem evsOK_popScope_of {g : Gen} (h : evsOK g = true) :
    evsOK g.popScope = true := h

theorem evsOK_popBoth {g : Gen} (h : evsOK g = true) :
    evsOK (Gen.popScope (Gen.popAsync g)) = true := h

theorem evsOK_emitInject_of {g : Gen} (i : InjectEvent) (h : evsOK g = true) :
    evsOK (g.emitInject i) = true := h

theorem evsOK_foldlP : ∀ (ps : List Param) (g : Gen),
    evsOK (List.foldl (fun acc p => Gen.scopeAdd acc p.name) g ps) = evsOK g
  | [], g => rfl
  | p :: rest, g => by
    rw [List.foldl_cons, evsOK_foldlP rest, evsOK_scopeAdd]

theorem evsOK_foldlP_of {g : Gen} (ps : List Param) (h : evsOK g = true) :
    evsOK (List.foldl (fun acc p => Gen.scopeAdd acc p.name) g ps) = true := by
  rw [evsOK_foldlP]; exact h

theorem evsOK_foldlS : ∀ (ps : List String) (g : Gen),
    evsOK (List.foldl Gen.scopeAdd g ps) = evsOK g
  | [], g => rfl
  | p :: rest, g => by
    rw [List.foldl_cons, evsOK_foldlS rest, evsOK_scopeAdd]

theorem evsOK_foldlS_of {g : Gen} (ps : List String) (h : evsOK g = true) :
    evsOK (List.foldl Gen.scopeAdd g ps) = true := by
  rw [evsOK_foldlS]; exact h

theorem evsOK_emitEvent {g : Gen} {ev : RenderEvent} (hg : evsOK g = true)
    (hev : evOK ev = true) : evsOK (g.emitEvent ev) = true := by
  simp only [Gen.emitEvent, evsOK, List.all_append, List.all_cons,
    List.all_nil, Bool.and_eq_true] at hg ⊢
  exact ⟨hg, hev, trivial⟩

theorem evOK_awaited (n : String) (d a : Bool) :
    evOK ⟨n, d, true, a, false⟩ = true := by simp [evOK]

theorem evOK_assignT (n : String) (d a : Bool) :
    evOK ⟨n, d, false, a, true⟩ = true := by simp [evOK]

theorem evOK_bare1 (n : String) (d a : Bool) (h : ¬((!d && a) = true)) :
    evOK ⟨n, d, false, a, false⟩ = true := by
  cases d <;> cases a <;> simp_all [evOK]

theorem evOK_bare2 (n : String) (d a : Bool) (h : ¬((a && !d) = true)) :
    evOK ⟨n, d, false, a, false⟩ = true := by
  cases d <;> cases a <;> simp_all [evOK]

/-- Every generator entry preserves the scope-discipline invariant over the
recorded events: one conjunct per function of the mutual group. -/
theorem genOK : ∀ (fuel : Nat),
    (∀ (g : Gen) (s : Stmt), evsOK g = true →
      evsOK (genStmt fuel g s).2 = true)
    ∧ (∀ (g : Gen) (l : List Stmt), evsOK g = true →
      evsOK (genStmtList fuel g l).2 = true)
    ∧ (∀ (g : Gen) (e : Expr), evsOK g = true →
      evsOK (genExpr fuel g e).2 = true)
    ∧ (∀ (g : Gen) (l : List Expr), evsOK g = true →
      evsOK (genExprList fuel g l).2 = true)
    ∧ (∀ (g : Gen) (e : Expr), evsOK g = true →
      evsOK (buildWithoutAwait fuel g e).2 = true)
    ∧ (∀ (g : Gen) (acc : String) (ps : List (MProp × Bool)), evsOK g = true →
      evsOK (chainAppend fuel g acc ps).2 = true)
    ∧ (∀ (g : Gen) (e : Expr) (c fa : Bool), evsOK g = true →
      evsOK (genMemberAccess fuel g e c fa).2 = true)
    ∧ (∀ (g : Gen) (ps : List (String × Expr)), evsOK g = true →
      evsOK (genObjectProps fuel g ps).2 = true)
    ∧ (∀ (g : Gen) (ps : List (String × Expr)) (tn : Option String) (fv : Bool),
      evsOK g = true → evsOK (genObjectExpression fuel g ps tn fv).2 = true) := by
  intro fuel
  induction fuel with
  | zero =>
    refine ⟨?_, ?_, ?_, ?_, ?_, ?_, ?_, ?_, ?_⟩ <;> intros <;>
      simp_all [genStmt, genStmtList, genExpr, genExprList, buildWithoutAwait,
        chainAppend, genMemberAccess, genObjectProps, genObjectExpression]
  | succ fuel ih =>
    obtain ⟨ihS, ihSL, ihE, ihEL, ihBW, ihCA, ihMA, ihOP, ihOE⟩ := ih
    refine ⟨?_, ?_, ?_, ?_, ?_, ?_, ?_, ?_, ?_⟩
    · intro g s hg
      cases s with
      | typeDecl n a => exact hg
      | interfaceDecl n p => exact hg
      | varDecl ident c ann value =>
        simp only [genStmt]
        split
        case _ props iname tname =>
          exact ihOE (Gen.scopeAdd g ident) props (some tname) true
            (evsOK_scopeAdd_of ident hg)
        all_goals exact ihE (Gen.scopeAdd g ident) _ (evsOK_scopeAdd_of ident hg)
      | funcDecl name params rt body isAsync =>
        exact evsOK_popBoth (ihSL _ body (evsOK_foldlP_of params
          (evsOK_pushAsync_of isAsync (evsOK_pushScope_of
            (evsOK_scopeAdd_of name hg)))))
      | returnStmt v =>
        cases v with
        | none => exact hg
        | some v => exact ihE g v hg
      | ifStmt cond cons alt =>
        cases alt with
        | none => exact ihSL _ cons (ihE g cond hg)
        | some a => exact ihSL _ a (ihSL _ cons (ihE g cond hg))
      | forStmt v iter body isAsync =>
        exact evsOK_popScope_of (ihSL _ body (evsOK_scopeAdd_of v
          (evsOK_pushScope_of (ihE g iter hg))))
      | exprStmt e => exact ihE g e hg
    · intro g l hg
      cases l with
      | nil => exact hg
      | cons s rest => exact ihSL _ rest (ihS g s hg)
    · intro g e hg
      cases e with
      | literal v => cases v <;> exact hg
      | identifier name =>
        simp only [genExpr]
        split
        · exact evsOK_emitEvent hg (evOK_awaited _ _ _)
        · rename_i h
          exact evsOK_emitEvent hg (evOK_bare1 _ _ _ h)
      | binary op l r => exact ihE _ r (ihE g l hg)
      | unary op o => exact ihE g o hg
      | call callee args =>
        cases hEL : genExprList fuel g args with
        | mk argStrs g1 =>
          have hg1 : evsOK g1 = true := by
            have := ihEL g args hg; rw [hEL] at this; exact this
          simp only [genExpr, hEL]
          split
          · exact ihMA g1 _ true false hg1
          · exact ihMA g1 _ true false hg1
          · split
            · exact evsOK_emitEvent hg1 (evOK_awaited _ _ _)
            · exact ihE g1 _ hg1
          all_goals exact ihE g1 _ hg1
      | memberS o p c => exact ihMA g _ false false hg
      | memberE o p c => exact ihMA g _ false false hg
      | arrayE es => exact ihEL g es hg
      | objectE props iname => exact ihOE g props iname false hg
      | conditional t c a => exact ihE _ a (ihE _ c (ihE g t hg))
      | arrow params body isAsync =>
        exact evsOK_popBoth (ihE _ body (evsOK_foldlS_of params
          (evsOK_pushAsync_of isAsync (evsOK_pushScope_of hg))))
      | assign target value =>
        simp only [genExpr]
        split
        · exact ihE _ value (evsOK_emitEvent hg (evOK_assignT _ _ _))
        · exact ihE _ value (ihMA g _ false true hg)
        · exact ihE _ value (ihMA g _ false true hg)
        all_goals exact ihE _ value (ihE g _ hg)
      | awaitE a => exact ihE g a hg
    · intro g l hg
      cases l with
      | nil => exact hg
      | cons e rest => exact ihEL _ rest (ihE g e hg)
    · intro g e hg
      simp only [buildWithoutAwait]
      split
      · exact hg
      all_goals exact ihE g _ hg
    · intro g acc ps hg
      cases ps with
      | nil => exact hg
      | cons hd rest =>
        obtain ⟨prop, computed⟩ := hd
        cases prop with
        | ofString s =>
          simp only [chainAppend]
          split
          · split <;> exact ihCA g _ rest hg
          · exact ihCA g _ rest hg
        | ofNode e2 =>
          simp only [chainAppend]
          split
          · exact ihCA _ _ rest (ihE g e2 hg)
          · exact ihCA g _ rest hg
    · intro g node isCall fa hg
      cases hFM : flattenMember node with
      | mk root parts =>
        cases hBW : buildWithoutAwait fuel g root with
        | mk rootStr g1 =>
          have hg1 : evsOK g1 = true := by
            have := ihBW g root hg; rw [hBW] at this; exact this
          cases hCA : chainAppend fuel g1 rootStr parts with
          | mk chain g2 =>
            have hg2 : evsOK g2 = true := by
              have := ihCA g1 rootStr parts hg1; rw [hCA] at this; exact this
            simp only [genMemberAccess, hFM, hBW, hCA]
            split
            · -- array-method path
              cases hBW2 : buildWithoutAwait fuel g2 root with
              | mk beforeRoot g3 =>
                have hg3 : evsOK g3 = true := by
                  have := ihBW g2 root hg2; rw [hBW2] at this; exact this
                rename_i front method heq
                cases hCA2 : chainAppend fuel g3 beforeRoot front with
                | mk before g4 =>
                  have hg4 : evsOK g4 = true := by
                    have := ihCA g3 beforeRoot front hg3
                    rw [hCA2] at this; exact this
                  simp only [hBW2, hCA2]
                  split
                  · split
                    · exact evsOK_emitEvent hg4 (evOK_awaited _ _ _)
                    · rename_i h
                      exact evsOK_emitEvent hg4 (evOK_bare2 _ _ _ h)
                  · exact hg4
            · -- no trailing array method
              split
              · -- numeric-index path
                cases hBW3 : buildWithoutAwait fuel g2 root with
                | mk beforeRoot g3 =>
                  have hg3 : evsOK g3 = true := by
                    have := ihBW g2 root hg2; rw [hBW3] at this; exact this
                  rename_i front last heq
                  cases hCA3 : chainAppend fuel g3 beforeRoot front with
                  | mk before g4 =>
                    have hg4 : evsOK g4 = true := by
                      have := ihCA g3 beforeRoot front hg3
                      rw [hCA3] at this; exact this
                    obtain ⟨lastProp, lastComp⟩ := last
                    cases lastProp with
                    | ofString s =>
                      simp only [hBW3, hCA3]
                      split
                      · split
                        · exact evsOK_emitEvent hg4 (evOK_awaited _ _ _)
                        · rename_i h
                          exact evsOK_emitEvent hg4 (evOK_bare2 _ _ _ h)
                      · exact hg4
                    | ofNode e2 =>
                      cases hE5 : genExpr fuel g4 e2 with
                      | mk s5 g5 =>
                        have hg5 : evsOK g5 = true := by
                          have := ihE g4 e2 hg4; rw [hE5] at this; exact this
                        simp only [hBW3, hCA3, hE5]
                        split
                        · split
                          · exact evsOK_emitEvent hg5 (evOK_awaited _ _ _)
                          · rename_i h
                            exact evsOK_emitEvent hg5 (evOK_bare2 _ _ _ h)
                        · exact hg5
              · -- plain chain
                split
                · -- assignment target
                  split
                  · split
                    · exact evsOK_emitEvent hg2 (evOK_awaited _ _ _)
                    · rename_i h
                      exact evsOK_emitEvent hg2 (evOK_bare1 _ _ _ h)
                  · exact ihBW _ root (ihE g2 root hg2)
                · -- plain read
                  split
                  · split
                    · exact evsOK_emitEvent hg2 (evOK_awaited _ _ _)
                    · rename_i h
                      exact evsOK_emitEvent hg2 (evOK_bare1 _ _ _ h)
                  · exact ihBW _ root (ihE g2 root hg2)
    · intro g ps hg
      cases ps with
      | nil => exact hg
      | cons hd rest =>
        obtain ⟨k, v⟩ := hd
        exact ihOP _ rest (ihE g v hg)
    · intro g ps tn fv hg
      cases tn with
      | none => exact ihOP g ps hg
      | some n =>
        simp only [genObjectExpression]
        split
        · exact ihOP _ ps (evsOK_emitInject_of _ hg)
        · exact ihOP g ps hg

/-- C4 counterexample: inside the body of a non-async function, an
undeclared identifier is rendered bare (no `await`) while declared in no
active scope — the emitter only awaits undeclared names in async contexts. -/
theorem C4_counterexample :
    ¬ (∀ ev ∈ (generateAux 64 ⟨[.funcDecl ("f") [] none
            [.returnStmt (some (.identifier ("hostVar")))] false]⟩).2.events,
        ev.awaited = false → ev.declared = true) := by decide

/-- C4 (amended): every identifier the emitter renders without `await` is
declared in some active emitter scope at that point, or is being rendered in
a non-async lexical context, or is the simple-identifier target of an
assignment; the last two are genuine exceptions to the claimed discipline. -/
theorem C4_scope_discipline (fuel : Nat) (ast : ProgramNode) :
    ∀ ev ∈ (generateAux fuel ast).2.events,
      ev.awaited = false →
        ev.declared = true ∨ ev.inAsync = false ∨ ev.assignTarget = true := by
  intro ev hmem hb
  have h : evsOK (generateAux fuel ast).2 = true :=
    (genOK fuel).2.1
      { scopes := [[]], asyncContextStack := [true],
        events := [], injections := [] } ast.body rfl
  simp only [evsOK, List.all_eq_true] at h
  have h2 := h ev hmem
  simp only [evOK, hb, Bool.false_or, Bool.or_eq_true, Bool.not_eq_true'] at h2
  exact or_assoc.mp h2

/-- Witness for `C4_scope_discipline`: `const x = 5; x;` renders `x` bare
and declared. -/
theorem C4_scope_discipline_witness :
    (RenderEvent.mk ("x") true false true false).declared = true
      ∨ (RenderEvent.mk ("x") true false true false).inAsync = false
      ∨ (RenderEvent.mk ("x") true false true false).assignTarget = true :=
  C4_scope_discipline 64
    ⟨[.varDecl ("x") true none (.literal (.num ("5"))),
      .exprStmt (.identifier ("x"))]⟩
    (RenderEvent.mk ("x") true false true false) (by decide) (by decide)

mutual
/-- An expression whose object literals all carry an empty
`__inferredTypeName` slot — the shape the parser produces (its only
object-literal construction leaves the slot unset) and that `compile`
hands to the generator unchanged. -/
def stashFree : Expr → Bool
  | .literal _ => true
  | .identifier _ => true
  | .binary _ l r => stashFree l && stashFree r
  | .unary _ o => stashFree o
  | .call c args => stashFree c && stashFreeList args
  | .memberS o _ _ => stashFree o
  | .memberE o p _ => stashFree o && stashFree p
  | .arrayE es => stashFreeList es
  | .objectE props iname => iname.isNone && stashFreeProps props
  | .conditional t c a => stashFree t && stashFree c && stashFree a
  | .arrow _ b _ => stashFree b
  | .assign t v => stashFree t && stashFree v
  | .awaitE a => stashFree a

/-- `stashFree` over an expression list. -/
def stashFreeList : List Expr → Bool
  | [] => true
  | e :: rest => stashFree e && stashFreeList rest

/-- `stashFree` over object-literal properties. -/
def stashFreeProps : List (String × Expr) → Bool
  | [] => true
  | (_, v) :: rest => stashFree v && stashFreeProps rest
end

mutual
/-- `stashFree` over the expressions of a statement. -/
def stashFreeStmt : Stmt → Bool
  | .typeDecl _ _ => true
  | .interfaceDecl _ _ => true
  | .varDecl _ _ _ v => stashFree v
  | .funcDecl _ _ _ body _ => stashFreeStmts body
  | .returnStmt (some v) => stashFree v
  | .returnStmt none => true
  | .ifStmt c cons alt =>
    stashFree c && stashFreeStmts cons &&
      (match alt with | some a => stashFreeStmts a | none => true)
  | .forStmt _ iter body _ => stashFree iter && stashFreeStmts body
  | .exprStmt e => stashFree e

/-- `stashFree` over a statement list. -/
def stashFreeStmts : List Stmt → Bool
  | [] => true
  | s :: rest => stashFreeStmt s && stashFreeStmts rest
end

/-- `stashFree` of a member-chain segment. -/
def stashFreePart : MProp × Bool → Bool
  | (.ofString _, _) => true
  | (.ofNode e, _) => stashFree e

/-- `stashFree` over member-chain segments. -/
def stashFreeParts : List (MProp × Bool) → Bool
  | [] => true
  | p :: rest => stashFreePart p && stashFreeParts rest

theorem stashFreeParts_append : ∀ (l1 l2 : List (MProp × Bool)),
    stashFreeParts (l1 ++ l2) = (stashFreeParts l1 && stashFreeParts l2)
  | [], l2 => by simp [stashFreeParts]
  | p :: rest, l2 => by
    simp [stashFreeParts, stashFreeParts_append rest l2, Bool.and_assoc]

theorem flattenMember_stashFree : ∀ (e : Expr), stashFree e = true →
    stashFree (flattenMember e).1 = true
      ∧ stashFreeParts (flattenMember e).2 = true
  | .memberS o p c, h => by
    have ih := flattenMember_stashFree o (by simpa [stashFree] using h)
    cases hFM : flattenMember o with
    | mk r ps =>
      rw [hFM] at ih
      simp [flattenMember, hFM, stashFreeParts_append, stashFreeParts,
        stashFreePart, ih.1, ih.2]
  | .memberE o p c, h => by
    have h2 : stashFree o = true ∧ stashFree p = true := by
      simpa [stashFree, Bool.and_eq_true] using h
    have ih := flattenMember_stashFree o h2.1
    cases hFM : flattenMember o with
    | mk r ps =>
      rw [hFM] at ih
      simp [flattenMember, hFM, stashFreeParts_append, stashFreeParts,
        stashFreePart, ih.1, ih.2, h2.2]
  | .literal v, h => by simpa [flattenMember, stashFreeParts] using h
  | .identifier n, h => by simpa [flattenMember, stashFreeParts] using h
  | .binary op l r, h => by simpa [flattenMember, stashFreeParts] using h
  | .unary op o, h => by simpa [flattenMember, stashFreeParts] using h
  | .call c args, h => by simpa [flattenMember, stashFreeParts] using h
  | .arrayE es, h => by simpa [flattenMember, stashFreeParts] using h
  | .objectE props iname, h => by simpa [flattenMember, stashFreeParts] using h
  | .conditional t c a, h => by simpa [flattenMember, stashFreeParts] using h
  | .arrow ps b ia, h => by simpa [flattenMember, stashFreeParts] using h
  | .assign t v, h => by simpa [flattenMember, stashFreeParts] using h
  | .awaitE a, h => by simpa [flattenMember, stashFreeParts] using h

theorem splitLast_stashFree : ∀ (l front : List (MProp × Bool))
    (last : MProp × Bool), splitLast l = some (front, last) →
    stashFreeParts l = true →
    stashFreeParts front = true ∧ stashFreePart last = true
  | [], front, last, heq, _ => by simp [splitLast] at heq
  | [x], front, last, heq, h => by
    simp only [splitLast, Option.some.injEq, Prod.mk.injEq] at heq
    obtain ⟨h1, h2⟩ := heq
    subst h1; subst h2
    simp only [stashFreeParts, Bool.and_eq_true] at h
    exact ⟨rfl, h.1⟩
  | x :: y :: rest, front, last, heq, h => by
    simp only [stashFreeParts, Bool.and_eq_true] at h
    cases hS : splitLast (y :: rest) with
    | none => simp [splitLast, hS] at heq
    | some fl =>
      obtain ⟨f2, l2⟩ := fl
      have ih := splitLast_stashFree (y :: rest) f2 l2 hS
        (by simp [stashFreeParts, h.2.1, h.2.2])
      simp only [splitLast, hS, Option.some.injEq, Prod.mk.injEq] at heq
      obtain ⟨h1, h2⟩ := heq
      subst h1; subst h2
      exact ⟨by simp [stashFreeParts, h.1, ih.1], ih.2⟩

/-- A `_type` injection records the variable-declaration call site. -/
def injOK (i : InjectEvent) : Bool := i.fromVarDecl

/-- All recorded injections came from the variable-declaration path. -/
def injsOK (g : Gen) : Bool := g.injections.all injOK

theorem injsOK_scopeAdd_of {g : Gen} (n : String) (h : injsOK g = true) :
    injsOK (Gen.scopeAdd g n) = true := by
  cases hs : g.scopes <;> simp only [Gen.scopeAdd, hs] <;> exact h

theorem injsOK_foldlP_of {g : Gen} (ps : List Param) (h : injsOK g = true) :
    injsOK (List.foldl (fun acc p => Gen.scopeAdd acc p.name) g ps) = true := by
  induction ps generalizing g with
  | nil => exact h
  | cons p rest ih => exact ih (injsOK_scopeAdd_of p.name h)

theorem injsOK_foldlS_of {g : Gen} (ps : List String) (h : injsOK g = true) :
    injsOK (List.foldl Gen.scopeAdd g ps) = true := by
  induction ps generalizing g with
  | nil => exact h
  | cons p rest ih => exact ih (injsOK_scopeAdd_of p h)

theorem injsOK_emitInject {g : Gen} {i : InjectEvent} (hg : injsOK g = true)
    (hi : injOK i = true) : injsOK (g.emitInject i) = true := by
  simp only [Gen.emitInject, injsOK, List.all_append, List.all_cons,
    List.all_nil, Bool.and_eq_true] at hg ⊢
  exact ⟨hg, hi, trivial⟩

/-- Every generator entry preserves "all injections are from the
variable-declaration path" on stash-free input. -/
theorem injOKAll : ∀ (fuel : Nat),
    (∀ (g : Gen) (s : Stmt), stashFreeStmt s = true → injsOK g = true →
      injsOK (genStmt fuel g s).2 = true)
    ∧ (∀ (g : Gen) (l : List Stmt), stashFreeStmts l = true → injsOK g = true →
      injsOK (genStmtList fuel g l).2 = true)
    ∧ (∀ (g : Gen) (e : Expr), stashFree e = true → injsOK g = true →
      injsOK (genExpr fuel g e).2 = true)
    ∧ (∀ (g : Gen) (l : List Expr), stashFreeList l = true → injsOK g = true →
      injsOK (genExprList fuel g l).2 = true)
    ∧ (∀ (g : Gen) (e : Expr), stashFree e = true → injsOK g = true →
      injsOK (buildWithoutAwait fuel g e).2 = true)
    ∧ (∀ (g : Gen) (acc : String) (ps : List (MProp × Bool)),
      stashFreeParts ps = true → injsOK g = true →
      injsOK (chainAppend fuel g acc ps).2 = true)
    ∧ (∀ (g : Gen) (e : Expr) (c fa : Bool), stashFree e = true →
      injsOK g = true → injsOK (genMemberAccess fuel g e c fa).2 = true)
    ∧ (∀ (g : Gen) (ps : List (String × Expr)), stashFreeProps ps = true →
      injsOK g = true → injsOK (genObjectProps fuel g ps).2 = true)
    ∧ (∀ (g : Gen) (ps : List (String × Expr)) (tn : Option String) (fv : Bool),
      stashFreeProps ps = true → (fv = true ∨ tn = none) → injsOK g = true →
      injsOK (genObjectExpression fuel g ps tn fv).2 = true) := by
  intro fuel
  induction fuel with
  | zero =>
    refine ⟨?_, ?_, ?_, ?_, ?_, ?_, ?_, ?_, ?_⟩ <;> intros <;>
      simp_all [genStmt, genStmtList, genExpr, genExprList, buildWithoutAwait,
        chainAppend, genMemberAccess, genObjectProps, genObjectExpression]
  | succ fuel ih =>
    obtain ⟨ihS, ihSL, ihE, ihEL, ihBW, ihCA, ihMA, ihOP, ihOE⟩ := ih
    refine ⟨?_, ?_, ?_, ?_, ?_, ?_, ?_, ?_, ?_⟩
    · intro g s hsf hg
      cases s with
      | typeDecl n a => exact hg
      | interfaceDecl n p => exact hg
      | varDecl ident c ann value =>
        have hv : stashFree value = true := by
          simpa [stashFreeStmt] using hsf
        simp only [genStmt]
        split
        case _ props iname tname =>
          have hp : stashFreeProps props = true := by
            simp only [stashFree, Bool.and_eq_true] at hv
            exact hv.2
          exact ihOE _ props (some tname) true hp (Or.inl rfl)
            (injsOK_scopeAdd_of ident hg)
        all_goals exact ihE _ _ hv (injsOK_scopeAdd_of ident hg)
      | funcDecl name params rt body isAsync =>
        have hb : stashFreeStmts body = true := by
          simpa [stashFreeStmt] using hsf
        exact ihSL _ body hb (injsOK_foldlP_of params
          (injsOK_scopeAdd_of name hg))
      | returnStmt v =>
        cases v with
        | none => exact hg
        | some v =>
          exact ihE g v (by simpa [stashFreeStmt] using hsf) hg
      | ifStmt cond cons alt =>
        cases alt with
        | none =>
          have h1 : stashFree cond = true ∧ stashFreeStmts cons = true := by
            simpa [stashFreeStmt, Bool.and_eq_true] using hsf
          exact ihSL _ cons h1.2 (ihE g cond h1.1 hg)
        | some a =>
          have h1 : (stashFree cond = true ∧ stashFreeStmts cons = true)
              ∧ stashFreeStmts a = true := by
            simpa [stashFreeStmt, Bool.and_eq_true] using hsf
          exact ihSL _ a h1.2 (ihSL _ cons h1.1.2 (ihE g cond h1.1.1 hg))
      | forStmt v iter body isAsync =>
        have h1 : stashFree iter = true ∧ stashFreeStmts body = true := by
          simpa [stashFreeStmt, Bool.and_eq_true] using hsf
        exact ihSL _ body h1.2 (injsOK_scopeAdd_of v (ihE g iter h1.1 hg))
      | exprStmt e =>
        exact ihE g e (by simpa [stashFreeStmt] using hsf) hg
    · intro g l hsf hg
      cases l with
      | nil => exact hg
      | cons s rest =>
        have h1 : stashFreeStmt s = true ∧ stashFreeStmts rest = true := by
          simpa [stashFreeStmts, Bool.and_eq_true] using hsf
        exact ihSL _ rest h1.2 (ihS g s h1.1 hg)
    · intro g e hsf hg
      cases e with
      | literal v => cases v <;> exact hg
      | identifier name =>
        simp only [genExpr]
        split <;> exact hg
      | binary op l r =>
        have h1 : stashFree l = true ∧ stashFree r = true := by
          simpa [stashFree, Bool.and_eq_true] using hsf
        exact ihE _ r h1.2 (ihE g l h1.1 hg)
      | unary op o =>
        exact ihE g o (by simpa [stashFree] using hsf) hg
      | call callee args =>
        have h1 : stashFree callee = true ∧ stashFreeList args = true := by
          simpa [stashFree, Bool.and_eq_true] using hsf
        cases hEL : genExprList fuel g args with
        | mk argStrs g1 =>
          have hg1 : injsOK g1 = true := by
            have := ihEL g args h1.2 hg; rw [hEL] at this; exact this
          simp only [genExpr, hEL]
          split
          · exact ihMA g1 _ true false h1.1 hg1
          · exact ihMA g1 _ true false h1.1 hg1
          · split
            · exact hg1
            · exact ihE g1 _ h1.1 hg1
          all_goals exact ihE g1 _ h1.1 hg1
      | memberS o p c => exact ihMA g _ false false hsf hg
      | memberE o p c => exact ihMA g _ false false hsf hg
      | arrayE es =>
        exact ihEL g es (by simpa [stashFree] using hsf) hg
      | objectE props iname =>
        have h1 : iname = none ∧ stashFreeProps props = true := by
          simpa [stashFree, Bool.and_eq_true, Option.isNone_iff_eq_none]
            using hsf
        exact ihOE g props iname false h1.2 (Or.inr h1.1) hg
      | conditional t c a =>
        have h1 : (stashFree t = true ∧ stashFree c = true)
            ∧ stashFree a = true := by
          simpa [stashFree, Bool.and_eq_true] using hsf
        exact ihE _ a h1.2 (ihE _ c h1.1.2 (ihE g t h1.1.1 hg))
      | arrow params body isAsync =>
        exact ihE _ body (by simpa [stashFree] using hsf)
          (injsOK_foldlS_of params hg)
      | assign target value =>
        have h1 : stashFree target = true ∧ stashFree value = true := by
          simpa [stashFree, Bool.and_eq_true] using hsf
        simp only [genExpr]
        split
        · exact ihE _ value h1.2 hg
        · exact ihE _ value h1.2 (ihMA g _ false true h1.1 hg)
        · exact ihE _ value h1.2 (ihMA g _ false true h1.1 hg)
        all_goals exact ihE _ value h1.2 (ihE g _ h1.1 hg)
      | awaitE a =>
        exact ihE g a (by simpa [stashFree] using hsf) hg
    · intro g l hsf hg
      cases l with
      | nil => exact hg
      | cons e rest =>
        have h1 : stashFree e = true ∧ stashFreeList rest = true := by
          simpa [stashFreeList, Bool.and_eq_true] using hsf
        exact ihEL _ rest h1.2 (ihE g e h1.1 hg)
    · intro g e hsf hg
      simp only [buildWithoutAwait]
      split
      · exact hg
      all_goals exact ihE g _ hsf hg
    · intro g acc ps hsf hg
      cases ps with
      | nil => exact hg
      | cons hd rest =>
        obtain ⟨prop, computed⟩ := hd
        have h1 : stashFreePart (prop, computed) = true
            ∧ stashFreeParts rest = true := by
          simpa [stashFreeParts, Bool.and_eq_true] using hsf
        cases prop with
        | ofString s =>
          simp only [chainAppend]
          split
          · split <;> exact ihCA g _ rest h1.2 hg
          · exact ihCA g _ rest h1.2 hg
        | ofNode e2 =>
          have he2 : stashFree e2 = true := by
            simpa [stashFreePart] using h1.1
          simp only [chainAppend]
          split
          · exact ihCA _ _ rest h1.2 (ihE g e2 he2 hg)
          · exact ihCA g _ rest h1.2 hg
    · intro g node isCall fa hsf hg
      have hFMS := flattenMember_stashFree node hsf
      cases hFM : flattenMember node with
      | mk root parts =>
        rw [hFM] at hFMS
        obtain ⟨hroot, hparts⟩ := hFMS
        cases hBW : buildWithoutAwait fuel g root with
        | mk rootStr g1 =>
          have hg1 : injsOK g1 = true := by
            have := ihBW g root hroot hg; rw [hBW] at this; exact this
          cases hCA : chainAppend fuel g1 rootStr parts with
          | mk chain g2 =>
            have hg2 : injsOK g2 = true := by
              have := ihCA g1 rootStr parts hparts hg1
              rw [hCA] at this; exact this
            simp only [genMemberAccess, hFM, hBW, hCA]
            split
            · -- array-method path
              rename_i front method heq
              cases isCall with
              | false => simp at heq
              | true =>
                cases hS : splitLast parts with
                | none => simp [hS] at heq
                | some fl =>
                  obtain ⟨f2, l2⟩ := fl
                  obtain ⟨lp, lc⟩ := l2
                  cases lp with
                  | ofNode e9 => simp [hS] at heq
                  | ofString s =>
                    cases lc with
                    | true => simp [hS] at heq
                    | false =>
                      have hfront : stashFreeParts f2 = true :=
                        (splitLast_stashFree parts f2 (MProp.ofString s, false)
                          hS hparts).1
                      simp [hS] at heq
                      obtain ⟨hmem, h4, h5⟩ := heq
                      subst h4; subst h5
                      cases hBW2 : buildWithoutAwait fuel g2 root with
                      | mk beforeRoot g3 =>
                        have hg3 : injsOK g3 = true := by
                          have := ihBW g2 root hroot hg2
                          rw [hBW2] at this; exact this
                        cases hCA2 : chainAppend fuel g3 beforeRoot f2 with
                        | mk before g4 =>
                          have hg4 : injsOK g4 = true := by
                            have := ihCA g3 beforeRoot f2 hfront hg3
                            rw [hCA2] at this; exact this
                          simp only [hBW2, hCA2]
                          split
                          · split <;> exact hg4
                          · exact hg4
            · -- no trailing array method
              split
              · -- numeric-index path
                rename_i front last heq
                cases fa with
                | true => simp at heq
                | false =>
                  cases hS : splitLast parts with
                  | none => simp [hS] at heq
                  | some fl =>
                    obtain ⟨f2, l2⟩ := fl
                    cases hNum : isNumericIndexPart l2 with
                    | false => simp [hS, hNum] at heq
                    | true =>
                      simp [hS, hNum] at heq
                      obtain ⟨h4, h5⟩ := heq
                      subst h4; subst h5
                      have hsplit := splitLast_stashFree parts f2 l2 hS hparts
                      cases hBW3 : buildWithoutAwait fuel g2 root with
                      | mk beforeRoot g3 =>
                        have hg3 : injsOK g3 = true := by
                          have := ihBW g2 root hroot hg2
                          rw [hBW3] at this; exact this
                        cases hCA3 : chainAppend fuel g3 beforeRoot f2 with
                        | mk before g4 =>
                          have hg4 : injsOK g4 = true := by
                            have := ihCA g3 beforeRoot f2 hsplit.1 hg3
                            rw [hCA3] at this; exact this
                          obtain ⟨lastProp, lastComp⟩ := l2
                          cases lastProp with
                          | ofString s =>
                            simp only [hBW3, hCA3]
                            split
                            · split <;> exact hg4
                            · exact hg4
                          | ofNode e2 =>
                            have he2 : stashFree e2 = true := by
                              simpa [stashFreePart] using hsplit.2
                            cases hE5 : genExpr fuel g4 e2 with
                            | mk s5 g5 =>
                              have hg5 : injsOK g5 = true := by
                                have := ihE g4 e2 he2 hg4
                                rw [hE5] at this; exact this
                              simp only [hBW3, hCA3, hE5]
                              split
                              · split <;> exact hg5
                              · exact hg5
              · -- plain chain
                split
                · split
                  · split <;> exact hg2
                  · exact ihBW _ root hroot (ihE g2 root hroot hg2)
                · split
                  · split <;> exact hg2
                  · exact ihBW _ root hroot (ihE g2 root hroot hg2)
    · intro g ps hsf hg
      cases ps with
      | nil => exact hg
      | cons hd rest =>
        obtain ⟨k, v⟩ := hd
        have h1 : stashFree v = true ∧ stashFreeProps rest = true := by
          simpa [stashFreeProps, Bool.and_eq_true] using hsf
        exact ihOP _ rest h1.2 (ihE g v h1.1 hg)
    · intro g ps tn fv hsf hOr hg
      cases tn with
      | none => exact ihOP g ps hsf hg
      | some n =>
        have hfv : fv = true := by
          cases hOr with
          | inl h => exact h
          | inr h => exact absurd h (by simp)
        subst hfv
        simp only [genObjectExpression]
        split
        · exact ihOP _ ps hsf (injsOK_emitInject hg rfl)
        · exact ihOP g ps hsf hg

/-- The literal C8 claim beyond the variable-declaration path: some
parser-shaped (stash-free) program whose generation records a `_type`
injection that did not come from an annotated variable declaration. -/
def c8Beyond : Prop := ∃ (fuel : Nat) (ast : ProgramNode),
  stashFreeStmts ast.body = true ∧
  ∃ inj ∈ (generateAux fuel ast).2.injections, inj.fromVarDecl = false

/-- C8 counterexample: no compile walks the tree to stash inferred type
names — `__inferredTypeName` is never set on parser output — so on every
stash-free program every `_type` injection comes from the annotated
variable-declaration statement path, refuting the claimed
"not only literals that are the value of a variable declaration". -/
theorem C8_counterexample : ¬ c8Beyond := by
  rintro ⟨fuel, ast, hsf, inj, hmem, hfv⟩
  have h : injsOK (generateAux fuel ast).2 = true :=
    (injOKAll fuel).2.1
      { scopes := [[]], asyncContextStack := [true],
        events := [], injections := [] } ast.body hsf rfl
  simp only [injsOK, List.all_eq_true] at h
  have h2 := h inj hmem
  simp [injOK, hfv] at h2

/-- C8 (amended): `compile` performs no tree walk between type-check and
emit and nothing ever sets `__inferredTypeName`; on every program whose
object literals carry no stashed name (all parser output is such), the
emitter injects `_type:"<name>"` exactly through the variable-declaration
path — a declaration annotated with a type reference whose initializer is
an object literal — and every recorded injection is tagged with that path. -/
theorem C8_inject_only_vardecl (fuel : Nat) (ast : ProgramNode)
    (hsf : stashFreeStmts ast.body = true) :
    ∀ inj ∈ (generateAux fuel ast).2.injections, inj.fromVarDecl = true := by
  intro inj hmem
  have h : injsOK (generateAux fuel ast).2 = true :=
    (injOKAll fuel).2.1
      { scopes := [[]], asyncContextStack := [true],
        events := [], injections := [] } ast.body hsf rfl
  simp only [injsOK, List.all_eq_true] at h
  exact h inj hmem

/-- Witness for `C8_inject_only_vardecl`: `const x: Spell = { level: 1 }`
records the injection `⟨Spell, fromVarDecl := true⟩`. -/
theorem C8_inject_only_vardecl_witness :
    (InjectEvent.mk ("Spell") true).fromVarDecl = true :=
  C8_inject_only_vardecl 64
    ⟨[.varDecl ("x") true (some (.typeReference ("Spell")))
        (.objectE [(("level"), .literal (.num ("1")))] none)]⟩
    (by decide) (InjectEvent.mk ("Spell") true) (by decide)

/-- C7: for an async function declaration whose collected body return types
combine to `R`, the computed return type is `Promise<R>` unless `R` is
already a promise; with no annotation the function is bound under that
computed type, and with a declared return annotation the checker requires
`isAssignable(computedR, declared)` — failing with "Function <name> returns
<S> but declared <T>" — and binds the function with the declared type as
its final return type. -/
theorem C7_async_wrapping (st st2 : TypeChecker) (name : String)
    (params : List Param) (body : List Stmt)
    (paramTypes : List Ty) (tbl : List (String × Ty)) (returnTypes : List Ty)
    (hBind : bindParams st.customTypes st.symbolTable params = (paramTypes, tbl))
    (hRet : inferFuncReturns
      { st with currentFunctionIsAsync := true, symbolTable := tbl } body
        = .ok (returnTypes, st2)) :
    (checkStatement st (.funcDecl name params none body true)
      = .ok (.func paramTypes
            (if isPromiseKind (combineReturnTys returnTypes) then combineReturnTys returnTypes
             else Ty.promise (combineReturnTys returnTypes)) true,
          { st2 with
              symbolTable := jsSet st.symbolTable name
                (.func paramTypes
                  (if isPromiseKind (combineReturnTys returnTypes) then combineReturnTys returnTypes
                   else Ty.promise (combineReturnTys returnTypes)) true)
              currentFunctionIsAsync := st.currentFunctionIsAsync }))
    ∧ (∀ ann,
        checkStatement st (.funcDecl name params (some ann) body true)
          = (if isAssignable
                (if isPromiseKind (combineReturnTys returnTypes) then combineReturnTys returnTypes
                 else Ty.promise (combineReturnTys returnTypes))
                (annotationToType st2.customTypes ann) then
              .ok (.func paramTypes (annotationToType st2.customTypes ann) true,
                { st2 with
                    symbolTable := jsSet st.symbolTable name
                      (.func paramTypes (annotationToType st2.customTypes ann) true)
                    currentFunctionIsAsync := st.currentFunctionIsAsync })
            else
              .error ("Function " ++ name ++ " returns "
                ++ typeToString
                    (if isPromiseKind (combineReturnTys returnTypes) then combineReturnTys returnTypes
                     else Ty.promise (combineReturnTys returnTypes))
                ++ " but declared "
                ++ typeToString (annotationToType st2.customTypes ann)))) := by
  constructor
  · simp only [checkStatement, hBind, hRet, Bind.bind, Except.bind]
    cases hP : isPromiseKind (combineReturnTys returnTypes) <;> simp [hP]
  · intro ann
    simp only [checkStatement, hBind, hRet, Bind.bind, Except.bind]
    cases hP : isPromiseKind (combineReturnTys returnTypes) <;>
      cases hA : isAssignable
        (if isPromiseKind (combineReturnTys returnTypes) then combineReturnTys returnTypes
         else Ty.promise (combineReturnTys returnTypes))
        (annotationToType st2.customTypes ann) <;>
      simp_all

/-- Witness for `C7_async_wrapping`: `async fn f() { return 1 }` gets the
type `async () => Promise<number>` and is bound in the enclosing scope. -/
theorem C7_async_wrapping_witness :
    checkStatement (TypeChecker.make [])
        (.funcDecl ("f") [] none [.returnStmt (some (.literal (.num ("1"))))] true)
      = .ok (.func []
            (if isPromiseKind (combineReturnTys [tyNumber]) then combineReturnTys [tyNumber]
             else Ty.promise (combineReturnTys [tyNumber])) true,
          { ({ TypeChecker.make [] with
                currentFunctionIsAsync := true,
                symbolTable := [] }) with
              symbolTable := jsSet (TypeChecker.make []).symbolTable ("f")
                (.func []
                  (if isPromiseKind (combineReturnTys [tyNumber]) then combineReturnTys [tyNumber]
                   else Ty.promise (combineReturnTys [tyNumber])) true)
              currentFunctionIsAsync := (TypeChecker.make []).currentFunctionIsAsync }) :=
  (C7_async_wrapping (TypeChecker.make [])
    ({ TypeChecker.make [] with currentFunctionIsAsync := true, symbolTable := [] })
    ("f") [] [.returnStmt (some (.literal (.num ("1"))))] [] [] [tyNumber]
    rfl rfl).1

mutual
/-- Claim-side description of the `inferReturnType` traversal: the returned
expressions of all return statements reachable through Program, If (both
branches) and For bodies — but not through nested function declarations —
in encounter order. -/
def returnExprsOf : List Stmt → List Expr
  | [] => []
  | s :: rest => returnExprsOfStmt s ++ returnExprsOf rest

/-- One statement of the claim-side traversal. -/
def returnExprsOfStmt : Stmt → List Expr
  | .returnStmt (some v) => [v]
  | .ifStmt _ cons alt =>
    returnExprsOf cons ++ (match alt with
      | some a => returnExprsOf a
      | none => [])
  | .forStmt _ _ body _ => returnExprsOf body
  | _ => []
end

/-- Claim-side sequential re-inference of a list of collected expressions. -/
def inferSeq (st : TypeChecker) : List Expr → Except String (List Ty × TypeChecker)
  | [] => .ok ([], st)
  | e :: rest => do
    let (t, st1) ← inferExpression st e
    let (ts, st2) ← inferSeq st1 rest
    .ok (t :: ts, st2)

theorem inferSeq_append (xs : List Expr) : ∀ (st : TypeChecker) (ys : List Expr),
    inferSeq st (xs ++ ys) =
      (match inferSeq st xs with
       | .error e => .error e
       | .ok (t1, s1) =>
         (match inferSeq s1 ys with
          | .error e => .error e
          | .ok (t2, s2) => .ok (t1 ++ t2, s2))) := by
  induction xs with
  | nil =>
    intro st ys
    simp only [List.nil_append, inferSeq]
    cases inferSeq st ys with
    | error e => rfl
    | ok q => cases q with
      | mk t2 s2 => simp
  | cons x rest ih =>
    intro st ys
    cases h : inferExpression st x with
    | error e =>
      simp [List.cons_append, inferSeq, h, Bind.bind, Except.bind]
    | ok p =>
      cases p with
      | mk t s1 =>
        simp only [List.cons_append, inferSeq, h, Bind.bind, Except.bind,
          List.append_eq, ih s1 ys]
        cases h2 : inferSeq s1 rest with
        | error e => simp
        | ok q =>
          cases q with
          | mk ts s2 =>
            cases h3 : inferSeq s2 ys with
            | error e => simp [h3]
            | ok r => cases r with
              | mk t2 s3 => simp [h3]

/-- Joint strong-induction statement: the code's `collectReturns` walk
computes the sequential re-inference of the claim-side encounter-order
expression list, at every statement list and statement. -/
theorem collect_eq_joint : ∀ (n : Nat),
    (∀ (l : List Stmt), sizeOf l ≤ n → ∀ (st : TypeChecker),
      collectReturns st l = inferSeq st (returnExprsOf l))
    ∧ (∀ (s : Stmt), sizeOf s ≤ n → ∀ (st : TypeChecker),
      collectFromStmt st s = inferSeq st (returnExprsOfStmt s)) := by
  intro n
  induction n using Nat.strong_induction_on with
  | _ n ih =>
    constructor
    · intro l hl st
      cases l with
      | nil => simp [collectReturns, returnExprsOf, inferSeq]
      | cons s rest =>
        have hsz : sizeOf s < n ∧ sizeOf rest < n := by
          have : sizeOf (s :: rest) = 1 + sizeOf s + sizeOf rest := by simp
          omega
        have hs := (ih (sizeOf s) hsz.1).2 s le_rfl st
        simp only [collectReturns, returnExprsOf, hs, inferSeq_append,
          Bind.bind, Except.bind]
        cases inferSeq st (returnExprsOfStmt s) with
        | error e => rfl
        | ok p =>
          cases p with
          | mk t1 s1 =>
            have hr := (ih (sizeOf rest) hsz.2).1 rest le_rfl s1
            simp only [hr]
            cases inferSeq s1 (returnExprsOf rest) with
            | error e => rfl
            | ok q => cases q with
              | mk t2 s2 => simp
    · intro s hs st
      cases s with
      | returnStmt v =>
        cases v with
        | some v =>
          simp only [collectFromStmt, returnExprsOfStmt, inferSeq,
            Bind.bind, Except.bind]
        | none => simp [collectFromStmt, returnExprsOfStmt, inferSeq]
      | ifStmt c cons alt =>
        have hszc : sizeOf cons < n := by
          have : sizeOf (Stmt.ifStmt c cons alt)
              = 1 + sizeOf c + sizeOf cons + sizeOf alt := by simp
          omega
        have hc := (ih (sizeOf cons) hszc).1 cons le_rfl st
        cases alt with
        | none =>
          simp only [collectFromStmt, returnExprsOfStmt, hc, List.append_nil,
            Bind.bind, Except.bind]
          cases inferSeq st (returnExprsOf cons) with
          | error e => rfl
          | ok p => cases p with
            | mk t1 s1 => simp
        | some a =>
          have hsza : sizeOf a < n := by
            have : sizeOf (Stmt.ifStmt c cons (some a))
                = 1 + sizeOf c + sizeOf cons + (1 + sizeOf a) := by simp
            omega
          simp only [collectFromStmt, returnExprsOfStmt, hc,
            inferSeq_append (returnExprsOf cons) st (returnExprsOf a),
            Bind.bind, Except.bind]
          cases inferSeq st (returnExprsOf cons) with
          | error e => rfl
          | ok p =>
            cases p with
            | mk t1 s1 =>
              have ha := (ih (sizeOf a) hsza).1 a le_rfl s1
              simp only [ha]
              cases inferSeq s1 (returnExprsOf a) with
              | error e => rfl
              | ok q => cases q with
                | mk t2 s2 => simp
      | forStmt v it body a =>
        have hszb : sizeOf body < n := by
          have : sizeOf (Stmt.forStmt v it body a)
              = 1 + sizeOf v + sizeOf it + sizeOf body + sizeOf a := by simp
          omega
        have hb := (ih (sizeOf body) hszb).1 body le_rfl st
        simp [collectFromStmt, returnExprsOfStmt, hb]
      | typeDecl nm an => simp [collectFromStmt, returnExprsOfStmt, inferSeq]
      | interfaceDecl nm p => simp [collectFromStmt, returnExprsOfStmt, inferSeq]
      | varDecl i c an v => simp [collectFromStmt, returnExprsOfStmt, inferSeq]
      | funcDecl nm p r b a => simp [collectFromStmt, returnExprsOfStmt, inferSeq]
      | exprStmt e => simp [collectFromStmt, returnExprsOfStmt, inferSeq]

/-- `collectReturns` equals the claim-side collector at every list. -/
theorem collectReturns_eq_inferSeq (l : List Stmt) (st : TypeChecker) :
    collectReturns st l = inferSeq st (returnExprsOf l) :=
  (collect_eq_joint (sizeOf l)).1 l le_rfl st

/-- C6: `inferReturnType` first runs `check`, then collects the types of all
return statements reachable through Program, If (both branches) and For
bodies — not through nested function declarations — in encounter order
(re-inferring each return's expression), and returns Unknown when none were
collected, the sole collected type when exactly one was, and otherwise a
Union of all collected types in encounter order, without deduplication or
flattening. -/
theorem C6_inferReturnType_spec (st : TypeChecker) (ast : ProgramNode) :
    st.inferReturnType ast =
      (match st.check ast with
       | .error e => .error e
       | .ok (_, st1) =>
         (match inferSeq st1 (returnExprsOf ast.body) with
          | .error e => .error e
          | .ok (tys, st2) =>
            .ok ((match tys with
                  | [] => Ty.unknown
                  | [t] => t
                  | ts => Ty.union ts), st2))) := by
  simp only [TypeChecker.inferReturnType, Bind.bind, Except.bind]
  cases st.check ast with
  | error e => rfl
  | ok p =>
    cases p with
    | mk last st1 =>
      simp only [collectReturns_eq_inferSeq ast.body st1]
      cases inferSeq st1 (returnExprsOf ast.body) with
      | error e => rfl
      | ok q =>
        cases q with
        | mk tys st2 => simp [combineReturnTys]
